import Mathlib

/-!
Verification of the Monkey tree-walking interpreter (Rust, crates `src/` and
`monkey/`) against its specification.  The Rust sources are embedded shallowly:

* `src/token.rs`  → `Span`, `Token`, `TokenKind` (the `monkey` crate's token
  model additionally carries the `String`, `LBracket`, `RBracket` and `Colon`
  kinds used by its lexer and parser; they are included here);
* `src/lexer.rs`  → `LexState`, `readChar`, `nextToken` and friends;
* `monkey/src/parser.rs` → `ParserState`, `parseProgram` and friends;
* `src/ast.rs`    → `Statement`, `Expression`, `Program` and the `Display`
  rendering;
* `src/object.rs` → `Value`, `Frame`, `Store` (environments);
* `src/builtins.rs` → the builtin registry;
* `monkey/src/evaluator.rs` → `evalProgram`, `evalExpression` and friends.

Rust `isize` is modelled as `Int`; loops and recursion are modelled with an
explicit fuel parameter, `none` standing for a computation that has not
finished within the given fuel (and for the panic paths of the source, which
never return).  Reference-counted shared mutable environments
(`Rc<RefCell<Environment>>`) are modelled by a store (list) of frames
addressed by index; a "reference" to an environment is its index.
-/

namespace Monkey

/-! ### Tokens (`src/token.rs`) -/

/-- `Span` — a pair of character offsets.  Rust field `end` is `stop` here. -/
structure Span where
  start : Nat
  stop : Nat
  deriving DecidableEq, Repr

/-- `TokenKind` from `src/token.rs`, extended by the variants the lexer and
the `monkey` parser use (`String`, `LBracket`, `RBracket`, `Colon`).  Rust
keyword variants `Let, True, False, If, Else, Return` are `kwLet, …` here. -/
inductive TokenKind where
  | illegal
  | eof
  | ident (s : String)
  | int (s : String)
  | assign
  | plus
  | minus
  | bang
  | asterisk
  | slash
  | lessThan
  | greaterThan
  | equal
  | notEqual
  | comma
  | semicolon
  | lparen
  | rparen
  | lbrace
  | rbrace
  | lbracket
  | rbracket
  | colon
  | string (s : String)
  | function
  | kwLet
  | kwTrue
  | kwFalse
  | kwIf
  | kwElse
  | kwReturn
  deriving DecidableEq, Repr

structure Token where
  kind : TokenKind
  span : Span
  deriving DecidableEq, Repr

/-- `Token::new`. -/
def Token.new (kind : TokenKind) (start stop : Nat) : Token :=
  { kind := kind, span := { start := start, stop := stop } }

/-- `TokenKind::lookup_ident`. -/
def TokenKind.lookupIdent (k : TokenKind) : TokenKind :=
  match k with
  | .ident s =>
    if s = "fn" then .function
    else if s = "let" then .kwLet
    else if s = "true" then .kwTrue
    else if s = "false" then .kwFalse
    else if s = "if" then .kwIf
    else if s = "else" then .kwElse
    else if s = "return" then .kwReturn
    else .ident s
  | k => k

/-- `impl fmt::Display for TokenKind` (src/token.rs); the four variants that
file lacks are rendered in the evident way (`[`, `]`, `:`, the raw string). -/
def TokenKind.toStr : TokenKind → String
  | .illegal => "Illegal"
  | .eof => "Eof"
  | .ident x => x
  | .int x => x
  | .assign => "="
  | .plus => "+"
  | .minus => "-"
  | .bang => "!"
  | .asterisk => "*"
  | .slash => "/"
  | .lessThan => "<"
  | .greaterThan => ">"
  | .equal => "=="
  | .notEqual => "!="
  | .comma => ","
  | .semicolon => ";"
  | .lparen => "("
  | .rparen => ")"
  | .lbrace => "\x7b"
  | .rbrace => "\x7d"
  | .lbracket => "["
  | .rbracket => "]"
  | .colon => ":"
  | .string x => x
  | .function => "fn"
  | .kwLet => "let"
  | .kwTrue => "true"
  | .kwFalse => "false"
  | .kwIf => "if"
  | .kwElse => "else"
  | .kwReturn => "return"

/-! ### Lexer (`src/lexer.rs`)

The lexer state holds the source as a list of characters (Rust iterates
`input.chars()` by index).  `position`/`read_position`/`ch` are exactly the
Rust fields. -/

structure LexState where
  input : List Char
  position : Nat
  readPosition : Nat
  ch : Option Char
  deriving Repr

/-- `Lexer::read_char`. -/
def readChar (s : LexState) : LexState :=
  let c := if s.input.length ≤ s.readPosition then none else s.input.get? s.readPosition
  { s with ch := c, position := s.readPosition, readPosition := s.readPosition + 1 }

/-- `Lexer::new`. -/
def lexerNew (input : List Char) : LexState :=
  readChar { input := input, position := 0, readPosition := 0, ch := none }

/-- `Lexer::peek_char`. -/
def peekChar (s : LexState) : Option Char :=
  s.input.get? s.readPosition

/-- Rust `char::is_ascii_whitespace`. -/
def isAsciiWhitespace (c : Char) : Bool :=
  c = ' ' || c = '\t' || c = '\n' || c = '\x0d' || c = '\x0c'

/-- `is_letter` (src/lexer.rs). -/
def isLetter (c : Char) : Bool :=
  ('a' ≤ c && c ≤ 'z') || ('A' ≤ c && c ≤ 'Z') || c = '_'

/-- `is_digit` (src/lexer.rs). -/
def isDigit (c : Char) : Bool :=
  '0' ≤ c && c ≤ '9'

/-- The shared shape of the lexer's three scanning `while` loops
(`skip_whitespace`, `read_identfier`, `read_number`): advance while the
current character satisfies `pred`.  Fuel-indexed; `none` = fuel exhausted. -/
def advanceWhile (pred : Char → Bool) : Nat → LexState → Option LexState
  | 0, _ => none
  | fuel + 1, s =>
    match s.ch with
    | some c => if pred c then advanceWhile pred fuel (readChar s) else some s
    | none => some s

/-- `Lexer::skip_whitespace`. -/
def skipWhitespace (fuel : Nat) (s : LexState) : Option LexState :=
  advanceWhile isAsciiWhitespace fuel s

/-- The UTF-8 byte width of a character (Rust `char::len_utf8`). -/
def utf8Width (c : Char) : Nat :=
  if c.toNat < 128 then 1
  else if c.toNat < 2048 then 2
  else if c.toNat < 65536 then 3
  else 4

/-- Drop the characters covering the first `a` bytes of the UTF-8 encoded
text; `none` when `a` overruns the text or falls inside a character. -/
def dropUtf8 : List Char → Nat → Option (List Char)
  | cs, 0 => some cs
  | [], _ + 1 => none
  | c :: cs, n + 1 =>
    if utf8Width c ≤ n + 1 then dropUtf8 cs (n + 1 - utf8Width c) else none

/-- Take the characters covering the first `n` bytes of the UTF-8 encoded
text; `none` when `n` overruns the text or falls inside a character. -/
def takeUtf8 : List Char → Nat → Option (List Char)
  | _, 0 => some []
  | [], _ + 1 => none
  | c :: cs, n + 1 =>
    if utf8Width c ≤ n + 1 then
      Option.map (fun l => c :: l) (takeUtf8 cs (n + 1 - utf8Width c))
    else none

/-- Rust `&self.input[a..b]`: a *byte*-indexed slice of the UTF-8 encoded
source; `none` models the panic when `a > b`, an index is out of range, or
an index is not a character boundary.  The lexer's positions count
characters (`chars().nth` in `read_char`), so on non-ASCII input the byte
indices disagree with them and a slice can panic; on ASCII input byte and
character indices coincide. -/
def slice (l : List Char) (a b : Nat) : Option String :=
  if a ≤ b then
    match dropUtf8 l a with
    | none => none
    | some cs =>
      match takeUtf8 cs (b - a) with
      | none => none
      | some cs' => some (String.mk cs')
  else none

/-- `Lexer::read_identfier` (sic).  Returns literal text, span, new state. -/
def readIdentfier (fuel : Nat) (s : LexState) : Option (String × Span × LexState) :=
  match advanceWhile isLetter fuel s with
  | none => none
  | some s' =>
    match slice s.input s.position s'.position with
    | none => none
    | some lit => some (lit, { start := s.position, stop := s'.position - 1 }, s')

/-- `Lexer::read_number`. -/
def readNumber (fuel : Nat) (s : LexState) : Option (String × Span × LexState) :=
  match advanceWhile isDigit fuel s with
  | none => none
  | some s' =>
    match slice s.input s.position s'.position with
    | none => none
    | some lit => some (lit, { start := s.position, stop := s'.position - 1 }, s')

/-- The `loop` inside `Lexer::read_string`: `read_char` until the current
character is a closing quote.  On an unterminated string the Rust loop never
exits; here that is `none` for every fuel. -/
def readStringLoop : Nat → LexState → Option LexState
  | 0, _ => none
  | fuel + 1, s =>
    let s' := readChar s
    if s'.ch = some '"' then some s' else readStringLoop fuel s'

/-- `Lexer::read_string`. -/
def readString (fuel : Nat) (s : LexState) : Option (String × Span × LexState) :=
  let currentPosition := s.position + 1
  match readStringLoop fuel s with
  | none => none
  | some s' =>
    match slice s.input currentPosition s'.position with
    | none => none
    | some lit => some (lit, { start := currentPosition - 1, stop := s'.position }, s')

/-- `Lexer::next_token`.  The single `fuel` feeds each internal scanning
loop; `s.input.length + 2` is always sufficient (see `nextTokenAmple`). -/
def nextToken (fuel : Nat) (s : LexState) : Option (Token × LexState) :=
  match skipWhitespace fuel s with
  | none => none
  | some s =>
    match s.ch with
    | none => some (Token.new .eof s.position s.position, readChar s)
    | some c =>
      if c = '=' then
        if peekChar s = some '=' then
          let start := s.position
          let s := readChar s
          some (Token.new .equal start s.position, readChar s)
        else some (Token.new .assign s.position s.position, readChar s)
      else if c = '+' then some (Token.new .plus s.position s.position, readChar s)
      else if c = '-' then some (Token.new .minus s.position s.position, readChar s)
      else if c = '!' then
        if peekChar s = some '=' then
          let start := s.position
          let s := readChar s
          some (Token.new .notEqual start s.position, readChar s)
        else some (Token.new .bang s.position s.position, readChar s)
      else if c = '/' then some (Token.new .slash s.position s.position, readChar s)
      else if c = '*' then some (Token.new .asterisk s.position s.position, readChar s)
      else if c = '<' then some (Token.new .lessThan s.position s.position, readChar s)
      else if c = '>' then some (Token.new .greaterThan s.position s.position, readChar s)
      else if c = ';' then some (Token.new .semicolon s.position s.position, readChar s)
      else if c = ',' then some (Token.new .comma s.position s.position, readChar s)
      else if c = '(' then some (Token.new .lparen s.position s.position, readChar s)
      else if c = ')' then some (Token.new .rparen s.position s.position, readChar s)
      else if c = '\x7b' then some (Token.new .lbrace s.position s.position, readChar s)
      else if c = '\x7d' then some (Token.new .rbrace s.position s.position, readChar s)
      else if c = '[' then some (Token.new .lbracket s.position s.position, readChar s)
      else if c = ']' then some (Token.new .rbracket s.position s.position, readChar s)
      else if c = '"' then
        match readString fuel s with
        | none => none
        | some (lit, sp, s') =>
          some ({ kind := .string lit, span := sp }, readChar s')
      else if isLetter c then
        match readIdentfier fuel s with
        | none => none
        | some (lit, sp, s') =>
          some ({ kind := TokenKind.lookupIdent (.ident lit), span := sp }, s')
      else if isDigit c then
        match readNumber fuel s with
        | none => none
        | some (lit, sp, s') =>
          some ({ kind := .int lit, span := sp }, s')
      else some (Token.new .illegal s.position s.position, readChar s)

/-- `next_token` with the always-sufficient fuel for its internal loops. -/
def nextTokenAmple (s : LexState) : Option (Token × LexState) :=
  nextToken (s.input.length + 2) s

/-- Run the lexer to completion: the token sequence up to and including the
first `Eof` token (the REPL/parser consumes tokens this way). -/
def lexAll : Nat → LexState → Option (List Token)
  | 0, _ => none
  | fuel + 1, s =>
    match nextTokenAmple s with
    | none => none
    | some (t, s') =>
      if t.kind = .eof then some [t]
      else match lexAll fuel s' with
        | none => none
        | some ts => some (t :: ts)

/-- Lex a source string from a fresh lexer. -/
def lexSource (fuel : Nat) (text : String) : Option (List Token) :=
  lexAll fuel (lexerNew text.toList)

/-! ### AST (`src/ast.rs`)

`Identifier` is a newtype over `String`; it is modelled as `String` directly.
`Program` is a newtype over `Vec<Statement>`, modelled as `List Statement`;
`BlockStatement` is an alias of `Program`.  Rust variants `Prefix`/`Infix`
of `Expression` are `preExpr`/`infExpr` here; all fields, including the
`token` the `Display` impl ignores, are kept. -/

mutual

inductive Statement where
  | letStmt (token : Token) (name : String) (value : Expression)
  | returnStmt (token : Token) (value : Expression)
  | expr (e : Expression)

inductive Expression where
  | ident (name : String)
  | integerLiteral (i : Int)
  | preExpr (token : Token) (operator : String) (right : Expression)
  | infExpr (token : Token) (operator : String) (left right : Expression)
  | boolean (b : Bool)
  | ifExpr (condition : Expression) (consequence : List Statement)
      (alternative : Option (List Statement))
  | functionLiteral (parameters : List String) (body : List Statement)
  | call (function : Expression) (arguments : List Expression)
  | stringLiteral (s : String)
  | arrayLiteral (elements : List Expression)
  | indexExpr (left index : Expression)
  | hashLiteral (pairs : List (Expression × Expression))

end

abbrev Program := List Statement

/-! The `fmt::Display` implementations for the AST.  The recursion nests
through lists, so the mutually recursive instances are tied through an
explicit fuel level: `renderFns (fuel + 1)` renders one nesting level using
the instances of `renderFns fuel`, and `renderFns 0` knows nothing (`none` =
fuel exhausted).  This keeps every definition a plain structural recursion
on `Nat` that the kernel can evaluate.  Rust's `Vec::join(", ")` is
`String.intercalate ", "`. -/

structure RenderF where
  expr : Expression → Option String
  exprList : List Expression → Option (List String)
  pairList : List (Expression × Expression) → Option (List String)
  stmt : Statement → Option String
  program : List Statement → Option String

/-- One nesting level of the `Display` impls of `src/ast.rs`. -/
def renderLevel (prev : RenderF) : RenderF where
  /- `Display for Expression`. -/
  expr e :=
    match e with
    | .ident value => some value
    | .integerLiteral value => some (toString value)
    | .preExpr _ operator right =>
      match prev.expr right with
      | none => none
      | some r => some ("(" ++ operator ++ r ++ ")")
    | .infExpr _ operator left right =>
      match prev.expr left, prev.expr right with
      | some l, some r => some ("(" ++ l ++ " " ++ operator ++ " " ++ r ++ ")")
      | _, _ => none
    | .boolean value => some (if value then "true" else "false")
    | .ifExpr condition consequence alternative =>
      match prev.expr condition, prev.program consequence with
      | some c, some cons =>
        match alternative with
        | some alt =>
          match prev.program alt with
          | none => none
          | some a => some ("if" ++ c ++ " " ++ cons ++ " " ++ ("else " ++ a))
        | none => some ("if" ++ c ++ " " ++ cons ++ " " ++ "")
      | _, _ => none
    | .functionLiteral parameters body =>
      match prev.program body with
      | none => none
      | some b => some ("(" ++ String.intercalate ", " parameters ++ ")" ++ b)
    | .call function arguments =>
      match prev.expr function, prev.exprList arguments with
      | some f, some args => some (f ++ "(" ++ String.intercalate ", " args ++ ")")
      | _, _ => none
    | .stringLiteral s => some s
    | .arrayLiteral v =>
      match prev.exprList v with
      | none => none
      | some elems => some ("[" ++ String.intercalate ", " elems ++ "]")
    | .indexExpr left index =>
      match prev.expr left, prev.expr index with
      | some l, some i => some ("(" ++ l ++ "[" ++ i ++ "])")
      | _, _ => none
    | .hashLiteral v =>
      match prev.pairList v with
      | none => none
      | some pairs => some ("\x7b" ++ String.intercalate ", " pairs ++ "\x7d")
  /- the `map(to_string).collect()` over call arguments / array elements -/
  exprList es :=
    match es with
    | [] => some []
    | e :: rest =>
      match prev.expr e, prev.exprList rest with
      | some s, some ss => some (s :: ss)
      | _, _ => none
  /- the `map(|(key, val)| format!("{}:{}", key, val))` over hash pairs -/
  pairList ps :=
    match ps with
    | [] => some []
    | (k, v) :: rest =>
      match prev.expr k, prev.expr v, prev.pairList rest with
      | some ks, some vs, some ss => some ((ks ++ ":" ++ vs) :: ss)
      | _, _, _ => none
  /- `Display for Statement` -/
  stmt s :=
    match s with
    | .letStmt token name value =>
      match prev.expr value with
      | none => none
      | some v => some (token.kind.toStr ++ " " ++ name ++ " = " ++ v ++ ";")
    | .returnStmt token value =>
      match prev.expr value with
      | none => none
      | some v => some (token.kind.toStr ++ " " ++ v ++ ";")
    | .expr e => prev.expr e
  /- `Display for Program`: the statements' renderings concatenated -/
  program stmts :=
    match stmts with
    | [] => some ""
    | s :: rest =>
      match prev.stmt s, prev.program rest with
      | some x, some r => some (x ++ r)
      | _, _ => none

def renderFns : Nat → RenderF
  | 0 => { expr := fun _ => none, exprList := fun _ => none, pairList := fun _ => none,
           stmt := fun _ => none, program := fun _ => none }
  | fuel + 1 => renderLevel (renderFns fuel)

/-- `Display for Expression`. -/
def renderExpr (fuel : Nat) : Expression → Option String :=
  (renderFns fuel).expr

/-- `Display for Statement`. -/
def renderStmt (fuel : Nat) : Statement → Option String :=
  (renderFns fuel).stmt

/-- `Display for Program`. -/
def renderProgram (fuel : Nat) : List Statement → Option String :=
  (renderFns fuel).program

/-! ### Parser (`monkey/src/parser.rs`) -/

/-- `Precedence`, with the derived order of declaration (`Prefix` is `pre`
here). -/
inductive Precedence where
  | lowest
  | equals
  | lessGreater
  | sum
  | product
  | pre
  | call
  | index
  deriving DecidableEq, Repr

def Precedence.toNat : Precedence → Nat
  | .lowest => 0
  | .equals => 1
  | .lessGreater => 2
  | .sum => 3
  | .product => 4
  | .pre => 5
  | .call => 6
  | .index => 7

/-- The derived `PartialOrd`/`Ord` comparison on `Precedence`. -/
def Precedence.lt (a b : Precedence) : Bool :=
  a.toNat < b.toNat

/-- `From<&Token> for Precedence`. -/
def tokenPrecedence (t : Token) : Precedence :=
  match t.kind with
  | .equal => .equals
  | .notEqual => .equals
  | .lessThan => .lessGreater
  | .greaterThan => .lessGreater
  | .plus => .sum
  | .minus => .sum
  | .slash => .product
  | .asterisk => .product
  | .lparen => .call
  | .lbracket => .index
  | _ => .lowest

/-- Rust `str::parse::<isize>` as the parser applies it to an `Int` token's
literal text: the lexer only emits non-empty runs of ASCII digits, and this
accumulates exactly such runs (anything else is `none`, the `expect` panic
path; the native `isize` overflow panic of huge literals is not modelled). -/
def parseIntLitGo : List Char → Nat → Option Int
  | [], acc => some (Int.ofNat acc)
  | c :: rest, acc =>
    if isDigit c then parseIntLitGo rest (acc * 10 + (c.toNat - '0'.toNat)) else none

def parseIntLit (s : String) : Option Int :=
  match s.toList with
  | [] => none
  | cs => parseIntLitGo cs 0

/-- A `miette::Report` as the parser builds them: a message, optionally a
labelled source span, optionally a `help` hint.  (`with_source_code` merely
attaches the source text for rendering and is not modelled.) -/
structure Diagnostic where
  message : String
  span : Option Span
  help : Option String
  deriving DecidableEq, Repr

/-- The parser state: `current_token`, `peek_token`, and the not yet pulled
remainder of the token stream.  The Rust parser owns the lexer; since the
lexer is deterministic the pre-lexed remainder is equivalent.  When the
remainder is exhausted the lexer keeps yielding `Eof` tokens (only their
spans, never consulted thereafter, differ from the Rust ones). -/
structure ParserState where
  current : Token
  peek : Token
  rest : List Token
  deriving Repr

def eofToken : Token := Token.new .eof 0 0

/-- `Parser::next_token`. -/
def pAdvance (st : ParserState) : ParserState :=
  match st.rest with
  | t :: rest => { current := st.peek, peek := t, rest := rest }
  | [] => { current := st.peek, peek := eofToken, rest := [] }

/-- `Parser::new` (pulls the first two tokens). -/
def parserNew (tokens : List Token) : ParserState :=
  match tokens with
  | [] => { current := eofToken, peek := eofToken, rest := [] }
  | [t] => { current := t, peek := eofToken, rest := [] }
  | t₁ :: t₂ :: rest => { current := t₁, peek := t₂, rest := rest }

/-- Result of a fallible parser method: `none` = fuel exhausted (or a panic
path), otherwise the Rust `Result` paired with the mutated parser state. -/
abbrev PRes (α : Type) := Option (Except Diagnostic α × ParserState)

/-- Sequencing that propagates `Err` like Rust's `?`. -/
def pBind {α β : Type} (r : PRes α) (k : α → ParserState → PRes β) : PRes β :=
  match r with
  | none => none
  | some (.error d, st) => some (.error d, st)
  | some (.ok a, st) => k a st

/-! The parser methods are mutually recursive; as for rendering they are
tied through a fuel level (`parseFns (fuel + 1)` parses using the methods of
`parseFns fuel`; `parseFns 0` knows nothing), keeping every definition a
kernel-evaluable structural recursion on `Nat`.  The per-method bodies live
in `parseLevel`. -/

structure ParseF where
  programLoop : ParserState → List Statement → List Diagnostic →
    Option (List Statement × List Diagnostic × ParserState)
  statement : ParserState → PRes Statement
  letStatement : ParserState → PRes Statement
  returnStatement : ParserState → PRes Statement
  expressionStatement : ParserState → PRes Statement
  expression : Precedence → ParserState → PRes Expression
  expressionLoop : Precedence → Expression → ParserState → PRes Expression
  prefixExpression : ParserState → PRes Expression
  infixExpression : Expression → ParserState → PRes Expression
  groupedExpression : ParserState → PRes Expression
  ifExpression : ParserState → PRes Expression
  blockStatement : ParserState → PRes (List Statement)
  blockLoop : ParserState → List Statement → PRes (List Statement)
  functionLiteral : ParserState → PRes Expression
  functionParameters : ParserState → PRes (List String)
  paramsLoop : ParserState → List String → PRes (List String)
  callExpression : Expression → ParserState → PRes Expression
  expressionList : TokenKind → ParserState → PRes (List Expression)
  exprListLoop : ParserState → List Expression → PRes (List Expression)
  indexExpression : Expression → ParserState → PRes Expression
  hashLiteral : ParserState → PRes Expression
  hashLoop : ParserState → List (Expression × Expression) →
    PRes (List (Expression × Expression))

/-- One fuel level of the `Parser` methods of `monkey/src/parser.rs`. -/
def parseLevel (prev : ParseF) : ParseF where
  /- the statement loop of `Parser::parse_program`, carrying the
     accumulated program and diagnostics -/
  programLoop st program errors :=
    if st.current.kind = .eof then some (program, errors, st)
    else
      match prev.statement st with
      | none => none
      | some (.ok stmt, st') => prev.programLoop (pAdvance st') (program ++ [stmt]) errors
      | some (.error e, st') => prev.programLoop (pAdvance st') program (errors ++ [e])
  /- `Parser::parse_statement` -/
  statement st :=
    match st.current.kind with
    | .kwLet => prev.letStatement st
    | .kwReturn => prev.returnStatement st
    | _ => prev.expressionStatement st
  /- `Parser::parse_let_statement` -/
  letStatement st :=
    let currentToken := st.current
    let st := pAdvance st
    match st.current.kind with
    | .ident name =>
      if st.peek.kind ≠ .assign then
        some (.error { message := "Expected Assignment", span := some st.peek.span,
                       help := some "Use `=` after the identifier" }, st)
      else
        let st := pAdvance (pAdvance st)
        pBind (prev.expression .lowest st) fun value st =>
          let st := if st.peek.kind = .semicolon then pAdvance st else st
          some (.ok (.letStmt currentToken name value), st)
    | t =>
      some (.error { message := "Expected Ident, got: " ++ t.toStr, span := none,
                     help := none }, st)
  /- `Parser::parse_return_statement` -/
  returnStatement st :=
    let currentToken := st.current
    let st := pAdvance st
    pBind (prev.expression .lowest st) fun value st =>
      let st := if st.peek.kind = .semicolon then pAdvance st else st
      some (.ok (.returnStmt currentToken value), st)
  /- `Parser::parse_expression_statement` -/
  expressionStatement st :=
    pBind (prev.expression .lowest st) fun e st =>
      let st := if st.peek.kind = .semicolon then pAdvance st else st
      some (.ok (.expr e), st)
  /- `Parser::parse_expression`: the Pratt prefix dispatch, then the infix
     loop -/
  expression precedence st :=
    let leftRes : PRes Expression :=
      match st.current.kind with
      | .ident ident => some (.ok (.ident ident), st)
      | .int i =>
        -- Rust: `i.parse().expect(..)` — the panic path is `none`.
        match parseIntLit i with
        | some n => some (.ok (.integerLiteral n), st)
        | none => none
      | .kwTrue => some (.ok (.boolean true), st)
      | .kwFalse => some (.ok (.boolean false), st)
      | .lparen => prev.groupedExpression st
      | .kwIf => prev.ifExpression st
      | .function => prev.functionLiteral st
      | .minus => prev.prefixExpression st
      | .bang => prev.prefixExpression st
      | .string s => some (.ok (.stringLiteral s), st)
      | .lbracket =>
        pBind (prev.expressionList .rbracket st) fun elems st =>
          some (.ok (.arrayLiteral elems), st)
      | .lbrace => prev.hashLiteral st
      | k => some (.error { message := "Unexpected Token: " ++ k.toStr, span := none,
                            help := none }, st)
    pBind leftRes fun leftExp st => prev.expressionLoop precedence leftExp st
  /- the `while` loop inside `parse_expression`; its `if let Ok(expr)` arms
     silently discard a failed infix/call/index parse and continue with the
     unchanged left expression -/
  expressionLoop precedence leftExp st :=
    if st.peek.kind ≠ .semicolon ∧ Precedence.lt precedence (tokenPrecedence st.peek) then
      let st := pAdvance st
      match st.current.kind with
      | .plus | .minus | .slash | .asterisk | .equal | .notEqual | .lessThan | .greaterThan =>
        match prev.infixExpression leftExp st with
        | none => none
        | some (.ok e, st') => prev.expressionLoop precedence e st'
        | some (.error _, st') => prev.expressionLoop precedence leftExp st'
      | .lparen =>
        match prev.callExpression leftExp st with
        | none => none
        | some (.ok e, st') => prev.expressionLoop precedence e st'
        | some (.error _, st') => prev.expressionLoop precedence leftExp st'
      | .lbracket =>
        match prev.indexExpression leftExp st with
        | none => none
        | some (.ok e, st') => prev.expressionLoop precedence e st'
        | some (.error _, st') => prev.expressionLoop precedence leftExp st'
      | _ => some (.ok leftExp, st)
    else some (.ok leftExp, st)
  /- `Parser::parse_prefix_expression` -/
  prefixExpression st :=
    let currentToken := st.current
    let operator := currentToken.kind.toStr
    let st := pAdvance st
    pBind (prev.expression .pre st) fun right st =>
      some (.ok (.preExpr currentToken operator right), st)
  /- `Parser::parse_infix_expression` -/
  infixExpression left st :=
    let currentToken := st.current
    let operator := currentToken.kind.toStr
    let precedence := tokenPrecedence st.current
    let st := pAdvance st
    pBind (prev.expression precedence st) fun right st =>
      some (.ok (.infExpr currentToken operator left right), st)
  /- `Parser::parse_grouped_expression`; the inner result is checked for the
     closing `)` before being returned, whether `Ok` or `Err` -/
  groupedExpression st :=
    let st := pAdvance st
    match prev.expression .lowest st with
    | none => none
    | some (expression, st) =>
      if st.peek.kind ≠ .rparen then
        some (.error { message := "Expected `)`", span := some st.peek.span,
                       help := some "Use `)` to end the grouping" }, st)
      else some (expression, pAdvance st)
  /- `Parser::parse_if_expression` -/
  ifExpression st :=
    if st.peek.kind ≠ .lparen then
      some (.error { message := "Expected `(`", span := some st.peek.span,
                     help := some "Use parentheses around condition" }, st)
    else
      let st := pAdvance (pAdvance st)
      pBind (prev.expression .lowest st) fun condition st =>
        if st.peek.kind ≠ .rparen then
          some (.error { message := "Expected `)`", span := some st.peek.span,
                         help := some "Use parentheses around condition" }, st)
        else
          let st := pAdvance st
          if st.peek.kind ≠ .lbrace then
            some (.error { message := "Expected Left Brace at beginning of block",
                           span := none, help := none }, st)
          else
            let st := pAdvance st
            pBind (prev.blockStatement st) fun consequence st =>
              if st.peek.kind = .kwElse then
                let st := pAdvance st
                if st.peek.kind ≠ .lbrace then
                  some (.error { message := "Expected Left Brace after `else`",
                                 span := none, help := none }, st)
                else
                  let st := pAdvance st
                  -- Rust: `self.parse_block_statement().ok()`
                  match prev.blockStatement st with
                  | none => none
                  | some (.ok alt, st) =>
                    some (.ok (.ifExpr condition consequence (some alt)), st)
                  | some (.error _, st) =>
                    some (.ok (.ifExpr condition consequence none), st)
              else some (.ok (.ifExpr condition consequence none), st)
  /- `Parser::parse_block_statement` (always returns `Ok`; statement errors
     inside the block are silently dropped by its `if let Ok`) -/
  blockStatement st := prev.blockLoop (pAdvance st) []
  /- the `while` loop inside `parse_block_statement` -/
  blockLoop st block :=
    if st.current.kind ≠ .rbrace ∧ st.current.kind ≠ .eof then
      match prev.statement st with
      | none => none
      | some (.ok stmt, st') => prev.blockLoop (pAdvance st') (block ++ [stmt])
      | some (.error _, st') => prev.blockLoop (pAdvance st') block
    else some (.ok block, st)
  /- `Parser::parse_function_literal` (the `Expeced` typos are the
     source's) -/
  functionLiteral st :=
    if st.peek.kind ≠ .lparen then
      some (.error { message := "Expeced LParen after `fn`", span := none, help := none }, st)
    else
      let st := pAdvance st
      pBind (prev.functionParameters st) fun parameters st =>
        if st.peek.kind ≠ .lbrace then
          some (.error { message := "Expeced LBrace after parameter list", span := none,
                         help := none }, st)
        else
          let st := pAdvance st
          pBind (prev.blockStatement st) fun body st =>
            some (.ok (.functionLiteral parameters body), st)
  /- `Parser::parse_function_parameters` -/
  functionParameters st :=
    if st.peek.kind = .rparen then some (.ok [], pAdvance st)
    else
      let st := pAdvance st
      let identifier := st.current.kind.toStr
      pBind (prev.paramsLoop st [identifier]) fun identifiers st =>
        if st.peek.kind ≠ .rparen then
          some (.error { message := "Expected RParen", span := none, help := none }, st)
        else some (.ok identifiers, pAdvance st)
  /- the comma `while` loop inside `parse_function_parameters` -/
  paramsLoop st identifiers :=
    if st.peek.kind = .comma then
      let st := pAdvance (pAdvance st)
      prev.paramsLoop st (identifiers ++ [st.current.kind.toStr])
    else some (.ok identifiers, st)
  /- `Parser::parse_call_expression` -/
  callExpression function st :=
    pBind (prev.expressionList .rparen st) fun arguments st =>
      some (.ok (.call function arguments), st)
  /- `Parser::parse_expression_list` -/
  expressionList endKind st :=
    if st.peek.kind = endKind then some (.ok [], pAdvance st)
    else
      let st := pAdvance st
      pBind (prev.expression .lowest st) fun first st =>
        pBind (prev.exprListLoop st [first]) fun list st =>
          if st.peek.kind ≠ endKind then
            some (.error { message := "Expected " ++ endKind.toStr ++ ", got "
                             ++ st.peek.kind.toStr, span := none, help := none }, st)
          else some (.ok list, pAdvance st)
  /- the comma `while` loop inside `parse_expression_list` -/
  exprListLoop st list :=
    if st.peek.kind = .comma then
      let st := pAdvance (pAdvance st)
      pBind (prev.expression .lowest st) fun e st =>
        prev.exprListLoop st (list ++ [e])
    else some (.ok list, st)
  /- `Parser::parse_index_expression` -/
  indexExpression left st :=
    let st := pAdvance st
    pBind (prev.expression .lowest st) fun index st =>
      if st.peek.kind ≠ .rbracket then
        some (.error { message := "Expected RBracket, got " ++ st.peek.kind.toStr,
                       span := none, help := none }, st)
      else some (.ok (.indexExpr left index), pAdvance st)
  /- `Parser::parse_hash_literal` -/
  hashLiteral st :=
    pBind (prev.hashLoop st []) fun pairs st =>
      if st.peek.kind ≠ .rbrace then
        some (.error { message := "Expected RBrace", span := none, help := none }, st)
      else some (.ok (.hashLiteral pairs), pAdvance st)
  /- the `while` loop inside `parse_hash_literal` -/
  hashLoop st pairs :=
    if st.peek.kind ≠ .rbrace then
      let st := pAdvance st
      pBind (prev.expression .lowest st) fun key st =>
        if st.peek.kind ≠ .colon then
          some (.error { message := "Expected Colon", span := none, help := none }, st)
        else
          let st := pAdvance (pAdvance st)
          pBind (prev.expression .lowest st) fun value st =>
            let pairs := pairs ++ [(key, value)]
            if st.peek.kind ≠ .rbrace ∧ st.peek.kind ≠ .comma then
              some (.error { message := "Expected RBrace or Comma", span := none,
                             help := none }, st)
            else
              let st := if st.peek.kind = .comma then pAdvance st else st
              prev.hashLoop st pairs
    else some (.ok pairs, st)

/-- `parseFns 0`: every method is out of fuel. -/
def parseBot : ParseF where
  programLoop _ _ _ := none
  statement _ := none
  letStatement _ := none
  returnStatement _ := none
  expressionStatement _ := none
  expression _ _ := none
  expressionLoop _ _ _ := none
  prefixExpression _ := none
  infixExpression _ _ := none
  groupedExpression _ := none
  ifExpression _ := none
  blockStatement _ := none
  blockLoop _ _ := none
  functionLiteral _ := none
  functionParameters _ := none
  paramsLoop _ _ := none
  callExpression _ _ := none
  expressionList _ _ := none
  exprListLoop _ _ := none
  indexExpression _ _ := none
  hashLiteral _ := none
  hashLoop _ _ := none

def parseFns : Nat → ParseF
  | 0 => parseBot
  | fuel + 1 => parseLevel (parseFns fuel)

/-- The statement loop of `Parser::parse_program`. -/
def parseProgramLoop (fuel : Nat) : ParserState → List Statement → List Diagnostic →
    Option (List Statement × List Diagnostic × ParserState) :=
  (parseFns fuel).programLoop

/-- `Parser::parse_statement`. -/
def parseStatement (fuel : Nat) : ParserState → PRes Statement :=
  (parseFns fuel).statement

/-- `Parser::parse_expression`. -/
def parseExpression (fuel : Nat) : Precedence → ParserState → PRes Expression :=
  (parseFns fuel).expression

/-- `Parser::parse_program`. -/
def parseProgram (fuel : Nat) (tokens : List Token) :
    Option (List Statement × List Diagnostic) :=
  match parseProgramLoop fuel (parserNew tokens) [] [] with
  | none => none
  | some (program, errors, _) => some (program, errors)

/-- Lex and parse a source string. -/
def parseSource (fuel : Nat) (text : String) :
    Option (List Statement × List Diagnostic) :=
  match lexSource fuel text with
  | none => none
  | some tokens => parseProgram fuel tokens

/-! ### Runtime objects and environments (`src/object.rs`)

`Object` is `Value` here.  An `Rc<RefCell<Environment>>` is modelled as an
index (`Nat`) into a `Store`, a list of frames that only ever grows; sharing
an environment is sharing its index, and `Environment::set` mutates the
frame in place, visibly through every shared index.  `Object::Hash`
(a `HashMap`) is modelled as an association list in which a later insert of
an equal key overwrites; its keys are always hashable (the evaluator checks
`is_hashable` before every insert and lookup, since `Object`'s `Hash` impl
panics on other kinds), so lookups compare with equality on the hashable
kinds.  `Object::Builtin` holds a function pointer obtained from the
`BUILTINS` registry; it is modelled by the registry name. -/

inductive Value where
  | integer (i : Int)
  | boolean (b : Bool)
  | null
  | returnValue (v : Value)
  | function (parameters : List String) (body : List Statement) (env : Nat)
  | string (s : String)
  | builtin (name : String)
  | array (elements : List Value)
  | hash (pairs : List (Value × Value))

/-- `Object::r#type` (the `BUITLIN` typo is the source's). -/
def Value.typeOf : Value → String
  | .integer _ => "INTEGER"
  | .boolean _ => "BOOLEAN"
  | .null => "NULL"
  | .returnValue _ => "RETURN_VALUE"
  | .function _ _ _ => "FUNCTION"
  | .string _ => "STRING"
  | .builtin _ => "BUITLIN"
  | .array _ => "ARRAY"
  | .hash _ => "HASH"

/-- `Object::is_hashable`. -/
def Value.isHashable : Value → Bool
  | .integer _ => true
  | .boolean _ => true
  | .string _ => true
  | _ => false

/-- Derived `PartialEq` on `Object`, restricted to the hashable kinds — the
only place the evaluator compares objects is hash-map insertion/lookup, and
there both sides are guaranteed hashable. -/
def hashableEq (a b : Value) : Bool :=
  match a, b with
  | .integer i, .integer j => i = j
  | .boolean x, .boolean y => x = y
  | .string s, .string t => s = t
  | _, _ => false

/-- `HashMap::get` on a hash object's pairs. -/
def hashGet (pairs : List (Value × Value)) (key : Value) : Option Value :=
  match pairs with
  | [] => none
  | (k, v) :: rest => if hashableEq k key then some v else hashGet rest key

/-- `HashMap::insert`: overwrite an equal key, else add the pair. -/
def hashInsert (pairs : List (Value × Value)) (key val : Value) :
    List (Value × Value) :=
  match pairs with
  | [] => [(key, val)]
  | (k, v) :: rest =>
    if hashableEq k key then (k, val) :: rest else (k, v) :: hashInsert rest key val

/-- One `Environment`: its `store` map and the optional `outer` reference. -/
structure Frame where
  store : List (String × Value)
  outer : Option Nat

/-- The heap of environments; an environment reference is an index. -/
abbrev Store := List Frame

/-- `HashMap::get` on an environment's `store`. -/
def frameGet (store : List (String × Value)) (name : String) : Option Value :=
  match store with
  | [] => none
  | (k, v) :: rest => if k = name then some v else frameGet rest name

/-- `HashMap::insert` on an environment's `store`. -/
def frameSet (store : List (String × Value)) (name : String) (val : Value) :
    List (String × Value) :=
  match store with
  | [] => [(name, val)]
  | (k, v) :: rest =>
    if k = name then (k, val) :: rest else (k, v) :: frameSet rest name val

/-- `Environment::get`: walk the outer chain.  The chain is acyclic (an
`outer` reference always predates the frame holding it), so `σ.length` steps
of fuel always suffice. -/
def envGetAux (σ : Store) : Nat → Nat → String → Option Value
  | 0, _, _ => none
  | fuel + 1, ref, name =>
    match σ.get? ref with
    | none => none
    | some frame =>
      match frameGet frame.store name with
      | some v => some v
      | none =>
        match frame.outer with
        | some outerRef => envGetAux σ fuel outerRef name
        | none => none

def envGet (σ : Store) (ref : Nat) (name : String) : Option Value :=
  envGetAux σ (σ.length + 1) ref name

/-- `Environment::set` on the frame `ref` points to. -/
def envSet (σ : Store) (ref : Nat) (name : String) (val : Value) : Store :=
  match σ.get? ref with
  | none => σ
  | some frame => σ.set ref { frame with store := frameSet frame.store name val }

/-! ### Built-ins (`src/builtins.rs`)

Builtin error messages interpolate the argument's `Display` form; that
rendering (`impl fmt::Display for Object`) is fuel-indexed like the AST
rendering, defaulting to `""` on exhausted fuel (below any claim's
observation). -/

structure DisplayF where
  val : Value → String
  list : List Value → List String
  pairs : List (Value × Value) → List String

/-- One fuel level of `impl fmt::Display for Object` (with its element and
pair `map(to_string)` loops); `fuel` feeds the AST rendering of a function
body. -/
def displayLevel (fuel : Nat) (prev : DisplayF) : DisplayF where
  val v :=
    match v with
    | .integer i => toString i
    | .boolean b => if b then "true" else "false"
    | .null => "null"
    | .returnValue x => prev.val x
    | .function parameters body _ =>
      "fn(" ++ String.intercalate ", " parameters ++ ")\x7b\n"
        ++ (renderProgram fuel body).getD "" ++ "\n\x7d"
    | .string s => s
    | .builtin _ => "builtin function"
    | .array elems => "[" ++ String.intercalate ", " (prev.list elems) ++ "]"
    | .hash ps => "\x7b" ++ String.intercalate ", " (prev.pairs ps) ++ "\x7d"
  list vs :=
    match vs with
    | [] => []
    | v :: rest => prev.val v :: prev.list rest
  pairs ps :=
    match ps with
    | [] => []
    | (k, v) :: rest => (prev.val k ++ ": " ++ prev.val v) :: prev.pairs rest

def displayFns : Nat → DisplayF
  | 0 => { val := fun _ => "", list := fun _ => [], pairs := fun _ => [] }
  | fuel + 1 => displayLevel fuel (displayFns fuel)

/-- `impl fmt::Display for Object`. -/
def valueDisplay (fuel : Nat) : Value → String :=
  (displayFns fuel).val

/-- The `BUILTINS` registry lookup. -/
def builtinsGet (name : String) : Option Value :=
  if name = "len" then some (.builtin "len")
  else if name = "first" then some (.builtin "first")
  else if name = "last" then some (.builtin "last")
  else if name = "rest" then some (.builtin "rest")
  else if name = "push" then some (.builtin "push")
  else none

/-- Builtin `len`. -/
def builtinLen (fuel : Nat) (args : List Value) : Except String Value :=
  match args with
  | [arg] =>
    match arg with
    | .string s => .ok (.integer s.length)
    | .array v => .ok (.integer v.length)
    | _ => .error ("argument to `len` not supported, got " ++ valueDisplay fuel arg)
  | _ => .error ("wrong number of arguments. got=" ++ toString args.length ++ ", want = 1")

/-- Builtin `first`. -/
def builtinFirst (fuel : Nat) (args : List Value) : Except String Value :=
  match args with
  | [arg] =>
    match arg with
    | .array v =>
      match v with
      | x :: _ => .ok x
      | [] => .ok .null
    | _ => .error ("argument to `first` must be ARRAY, got " ++ valueDisplay fuel arg)
  | _ => .error ("wrong number of arguments. got=" ++ toString args.length ++ ", want = 1")

/-- Builtin `last` (its error message names `first`, as the source does). -/
def builtinLast (fuel : Nat) (args : List Value) : Except String Value :=
  match args with
  | [arg] =>
    match arg with
    | .array v =>
      match v.getLast? with
      | some x => .ok x
      | none => .ok .null
    | _ => .error ("argument to `first` must be ARRAY, got " ++ valueDisplay fuel arg)
  | _ => .error ("wrong number of arguments. got=" ++ toString args.length ++ ", want = 1")

/-- Builtin `rest`. -/
def builtinRest (args : List Value) : Except String Value :=
  match args with
  | [arg] =>
    match arg with
    | .array v =>
      match v with
      | _ :: tail => .ok (.array tail)
      | [] => .ok .null
    | _ => .error ("argument to `rest` must be ARRAY, got " ++ arg.typeOf)
  | _ => .error ("wrong number of arguments. got=" ++ toString args.length ++ ", want = 1")

/-- Builtin `push`: a NEW array, the argument array appended with the value. -/
def builtinPush (args : List Value) : Except String Value :=
  match args with
  | [arg, x] =>
    match arg with
    | .array v => .ok (.array (v ++ [x]))
    | _ => .error ("argument to `push` must be ARRAY, got " ++ arg.typeOf)
  | _ => .error ("wrong number of arguments. got=" ++ toString args.length ++ ", want = 2")

/-- Dispatch of a `Object::Builtin` function pointer by registry name. -/
def applyBuiltin (fuel : Nat) (name : String) (args : List Value) : Except String Value :=
  if name = "len" then builtinLen fuel args
  else if name = "first" then builtinFirst fuel args
  else if name = "last" then builtinLast fuel args
  else if name = "rest" then builtinRest args
  else if name = "push" then builtinPush args
  else .error "unknown builtin"   -- unreachable: only registry names are wrapped

/-! ### Evaluator (`monkey/src/evaluator.rs`)

All evaluation functions return `Option (Except String (α × Store))`:
`none` for fuel exhaustion (and the panic paths), `some (.error e)` for a
`miette` error, `some (.ok (v, σ))` for a value with the updated store. -/

/-- `is_truthy`. -/
def isTruthy : Value → Bool
  | .null => false
  | .boolean b => b
  | _ => true

/-- `eval_prefix_expression` (pure: it touches no environment). -/
def evalPrefixExpression (operator : String) (right : Value) : Except String Value :=
  if operator = "!" then
    let res :=
      match right with
      | .boolean true => false
      | .boolean false => true
      | .null => true
      | _ => false
    .ok (.boolean res)
  else if operator = "-" then
    match right with
    | .integer i => .ok (.integer (-i))
    | _ =>
      let t := right.typeOf
      .error s!"unknown operator: -{t}"
  else
    let t := right.typeOf
    .error s!"unknown operator: {operator}{t}"

/-- `eval_infix_expression`.  The type tags are compared first; then the
`(left, operator, right)` tuple match of the source, written as a match on
the value shapes with an operator test chain inside (the value patterns of
the source's arms are disjoint, so the order of tests is equivalent).
Division is Rust's truncating `/` (`Int.div`); the divide-by-zero panic of
the source is not separately modelled (`Int.div _ 0 = 0`), and no claim
touches it. -/
def evalInfixExpression (operator : String) (left right : Value) : Except String Value :=
  if right.typeOf ≠ left.typeOf then
    let lt := left.typeOf
    let rt := right.typeOf
    .error s!"type mismatch: {lt} {operator} {rt}"
  else
    let lt := left.typeOf
    let rt := right.typeOf
    let unknown : Except String Value := .error s!"unknown operator: {lt} {operator} {rt}"
    match left, right with
    | .integer l, .integer r =>
      if operator = "+" then .ok (.integer (l + r))
      else if operator = "-" then .ok (.integer (l - r))
      else if operator = "*" then .ok (.integer (l * r))
      else if operator = "/" then .ok (.integer (Int.tdiv l r))
      else if operator = "<" then .ok (.boolean (l < r))
      else if operator = ">" then .ok (.boolean (r < l))
      else if operator = "==" then .ok (.boolean (l = r))
      else if operator = "!=" then .ok (.boolean (l ≠ r))
      else unknown
    | .boolean l, .boolean r =>
      if operator = "==" then .ok (.boolean (l = r))
      else if operator = "!=" then .ok (.boolean (l ≠ r))
      else unknown
    | .string l, .string r =>
      if operator = "+" then .ok (.string (l ++ r))
      else unknown
    | _, _ => unknown

/-- `eval_index_expression` (pure: it touches no environment). -/
def evalIndexExpression (left index : Value) : Except String Value :=
  match left, index with
  | .array v, .integer idx =>
    -- source: `let max = (v.len() - 1) as isize;` — the usize subtraction
    -- wraps to -1 for an empty array (release profile); for every
    -- realizable length that equals `(len : Int) - 1`.
    let max : Int := (v.length : Int) - 1
    if idx < 0 ∨ max < idx then .ok .null
    else .ok ((v.get? idx.toNat).getD .null)
  | .hash map, _ =>
    if !index.isHashable then
      let t := index.typeOf
      .error s!"unusable as hash key: {t}"
    else
      match hashGet map index with
      | some obj => .ok obj
      | none => .ok .null
  | _, _ => .error "Indexing only for arrays and maps"

/-- The parameter-binding loop of `apply_function`: `args[param_idx]` for
each parameter in order.  Too few arguments is the source's out-of-bounds
panic, `none` here. -/
def bindParams (store : List (String × Value)) :
    List String → List Value → Option (List (String × Value))
  | [], _ => some store
  | _ :: _, [] => none
  | p :: ps, a :: as_ => bindParams (frameSet store p a) ps as_

/-- Result type of the evaluation functions. -/
abbrev ERes (α : Type) := Option (Except String (α × Store))

/-- Sequencing that propagates errors like Rust's `?`. -/
def eBind {α β : Type} (r : ERes α) (k : α → Store → ERes β) : ERes β :=
  match r with
  | none => none
  | some (.error e) => some (.error e)
  | some (.ok (a, σ)) => k a σ

structure EvalF where
  program : List Statement → Nat → Store → ERes Value
  programLoop : List Statement → Nat → Store → Value → ERes Value
  statement : Statement → Nat → Store → ERes Value
  expression : Expression → Nat → Store → ERes Value
  expressions : List Expression → Nat → Store → ERes (List Value)
  hashLit : List (Expression × Expression) → Nat → Store →
    List (Value × Value) → ERes Value
  apply : Value → List Value → Store → ERes Value

/-- One fuel level of the evaluator functions of `monkey/src/evaluator.rs`
(as for the renderer and the parser, the mutual recursion is tied through
`evalFns` below; `fuel` feeds the builtins' error-message rendering). -/
def evalLevel (fuel : Nat) (prev : EvalF) : EvalF where
  /- `eval_program` (also evaluates block statements — `BlockStatement` is
     `Program`) -/
  program stmts env σ := prev.programLoop stmts env σ .null
  /- the statement loop of `eval_program`: `result` starts as `Null`, each
     statement's value replaces it, and a `ReturnValue` is returned, still
     tagged, at once -/
  programLoop stmts env σ result :=
    match stmts with
    | [] => some (.ok (result, σ))
    | stmt :: rest =>
      eBind (prev.statement stmt env σ) fun result σ' =>
        match result with
        | .returnValue v => some (.ok (.returnValue v, σ'))
        | _ => prev.programLoop rest env σ' result
  /- `eval_statement` -/
  statement stmt env σ :=
    match stmt with
    | .letStmt _ name value =>
      eBind (prev.expression value env σ) fun val σ' =>
        some (.ok (.null, envSet σ' env name val))
    | .returnStmt _ value =>
      eBind (prev.expression value env σ) fun val σ' =>
        some (.ok (.returnValue val, σ'))
    | .expr e => prev.expression e env σ
  /- `eval_expression` -/
  expression expression env σ :=
    match expression with
    | .integerLiteral i => some (.ok (.integer i, σ))
    | .boolean b => some (.ok (.boolean b, σ))
    | .ident name =>
      match envGet σ env name with
      | some val => some (.ok (val, σ))
      | none =>
        match builtinsGet name with
        | some b => some (.ok (b, σ))
        | none => some (.error s!"identifier not found: {name}")
    | .preExpr _ operator right =>
      eBind (prev.expression right env σ) fun rightObj σ' =>
        match evalPrefixExpression operator rightObj with
        | .ok v => some (.ok (v, σ'))
        | .error e => some (.error e)
    | .infExpr _ operator left right =>
      eBind (prev.expression left env σ) fun leftObj σ₁ =>
        eBind (prev.expression right env σ₁) fun rightObj σ₂ =>
          match evalInfixExpression operator leftObj rightObj with
          | .ok v => some (.ok (v, σ₂))
          | .error e => some (.error e)
    | .ifExpr condition consequence alternative =>
      eBind (prev.expression condition env σ) fun c σ' =>
        match isTruthy c with
        | true => prev.program consequence env σ'
        | false =>
          match alternative with
          | some alt => prev.program alt env σ'
          | none => some (.ok (.null, σ'))
    | .functionLiteral parameters body =>
      some (.ok (.function parameters body env, σ))
    | .call function arguments =>
      eBind (prev.expression function env σ) fun func σ₁ =>
        eBind (prev.expressions arguments env σ₁) fun args σ₂ =>
          prev.apply func args σ₂
    | .stringLiteral s => some (.ok (.string s, σ))
    | .arrayLiteral v =>
      eBind (prev.expressions v env σ) fun elements σ' =>
        some (.ok (.array elements, σ'))
    | .indexExpr left index =>
      eBind (prev.expression left env σ) fun l σ₁ =>
        eBind (prev.expression index env σ₁) fun i σ₂ =>
          match evalIndexExpression l i with
          | .ok v => some (.ok (v, σ₂))
          | .error e => some (.error e)
    | .hashLiteral v => prev.hashLit v env σ []
  /- `eval_expressions` -/
  expressions exps env σ :=
    match exps with
    | [] => some (.ok ([], σ))
    | exp :: rest =>
      eBind (prev.expression exp env σ) fun evaluated σ' =>
        eBind (prev.expressions rest env σ') fun vs σ'' =>
          some (.ok (evaluated :: vs, σ''))
  /- `eval_hash_literal`: evaluate key, value, check the key hashable,
     insert (`collect` into a `HashMap` stops at the first error) -/
  hashLit pairExprs env σ pairs :=
    match pairExprs with
    | [] => some (.ok (.hash pairs, σ))
    | (keyExpr, valExpr) :: rest =>
      eBind (prev.expression keyExpr env σ) fun key σ₁ =>
        eBind (prev.expression valExpr env σ₁) fun value σ₂ =>
          if key.isHashable then
            prev.hashLit rest env σ₂ (hashInsert pairs key value)
          else
            let t := key.typeOf
            some (.error s!"Type of {t} cannot be used as a key")
  /- `apply_function`: for a `Function`, a new enclosed environment whose
     parent is the *captured* environment gets the positional parameter
     bindings, the body is evaluated in it, and a `ReturnValue` result is
     unwrapped -/
  apply func args σ :=
    match func with
    | .function parameters body env =>
      match bindParams [] parameters args with
      | none => none
      | some bindings =>
        let extendedRef := σ.length
        let σ₁ := σ ++ [{ store := bindings, outer := some env }]
        eBind (prev.program body extendedRef σ₁) fun evaluated σ₂ =>
          match evaluated with
          | .returnValue rc => some (.ok (rc, σ₂))
          | _ => some (.ok (evaluated, σ₂))
    | .builtin name =>
      match applyBuiltin fuel name args with
      | .ok v => some (.ok (v, σ))
      | .error e => some (.error e)
    | _ =>
      let t := func.typeOf
      some (.error s!"not a function: {t}")

/-- `evalFns 0`: out of fuel everywhere. -/
def evalBot : EvalF where
  program _ _ _ := none
  programLoop _ _ _ _ := none
  statement _ _ _ := none
  expression _ _ _ := none
  expressions _ _ _ := none
  hashLit _ _ _ _ := none
  apply _ _ _ := none

def evalFns : Nat → EvalF
  | 0 => evalBot
  | fuel + 1 => evalLevel fuel (evalFns fuel)

/-- `eval_program`. -/
def evalProgram (fuel : Nat) : List Statement → Nat → Store → ERes Value :=
  (evalFns fuel).program

/-- The statement loop of `eval_program`. -/
def evalProgramLoop (fuel : Nat) : List Statement → Nat → Store → Value → ERes Value :=
  (evalFns fuel).programLoop

/-- `eval_statement`. -/
def evalStatement (fuel : Nat) : Statement → Nat → Store → ERes Value :=
  (evalFns fuel).statement

/-- `eval_expression`. -/
def evalExpression (fuel : Nat) : Expression → Nat → Store → ERes Value :=
  (evalFns fuel).expression

/-- `eval_expressions`. -/
def evalExpressions (fuel : Nat) : List Expression → Nat → Store → ERes (List Value) :=
  (evalFns fuel).expressions

/-- `eval_hash_literal`. -/
def evalHashLiteral (fuel : Nat) : List (Expression × Expression) → Nat → Store →
    List (Value × Value) → ERes Value :=
  (evalFns fuel).hashLit

/-- `apply_function`. -/
def applyFunction (fuel : Nat) : Value → List Value → Store → ERes Value :=
  (evalFns fuel).apply

/-- Evaluate a full source text from a fresh environment, as the REPL does:
lex, parse, evaluate the program in a fresh global environment.  Returns the
final value (or evaluation error) and the parse diagnostics. -/
def runSource (fuel : Nat) (text : String) :
    Option (Except String Value × List Diagnostic) :=
  match parseSource fuel text with
  | none => none
  | some (program, diags) =>
    match evalProgram fuel program 0 [{ store := [], outer := none }] with
    | none => none
    | some (.error e) => some (.error e, diags)
    | some (.ok (v, _)) => some (.ok v, diags)

/-! ### Derived pipeline helpers used by the claims -/

/-- Parse a source text and render (`Display`) the resulting AST. -/
def parseAndRender (fuel : Nat) (text : String) : Option String :=
  match parseSource fuel text with
  | none => none
  | some (program, _) => renderProgram fuel program

/-- The eight binary-operator token kinds of the Pratt loop in
`parse_expression` (exactly the arms that call `parse_infix_expression`). -/
def infixOpKinds : List TokenKind :=
  [.plus, .minus, .asterisk, .slash, .lessThan, .greaterThan, .equal, .notEqual]

/-- The `(type, operator, type)` combinations `eval_infix_expression`
supports (the match arms of the source that produce an `Ok`). -/
def infixSupported (left : Value) (operator : String) (right : Value) : Bool :=
  match left, right with
  | .integer _, .integer _ =>
    operator = "+" || operator = "-" || operator = "*" || operator = "/" ||
    operator = "<" || operator = ">" || operator = "==" || operator = "!="
  | .boolean _, .boolean _ => operator = "==" || operator = "!="
  | .string _, .string _ => operator = "+"
  | _, _ => false

/-! ### Definitions for the lexer-termination claim -/

/-- The lexer state at character position `p`: the normal form every
reachable state has (`read_position` one past `position`, `ch` the character
under `position`). -/
def stateAt (input : List Char) (p : Nat) : LexState :=
  { input := input, position := p, readPosition := p + 1, ch := input.get? p }

/-- The number of `"` characters at or after position `p`; a source has an
unterminated string literal exactly when the total count is odd. -/
def quotesFrom (input : List Char) (p : Nat) : Nat :=
  (input.drop p).count '"'

/-- The lexer state after `k` calls of `next_token` (with ample fuel). -/
def stateAfter : Nat → LexState → Option LexState
  | 0, s => some s
  | k + 1, s =>
    match nextTokenAmple s with
    | none => none
    | some (_, s') => stateAfter k s'

/-- The result of the `(k+1)`-st repeated `next_token` call. -/
def callK (k : Nat) (s : LexState) : Option (Token × LexState) :=
  match stateAfter k s with
  | none => none
  | some s' => nextTokenAmple s'

/-- The lexer contract of the spec, for one source text: repeated
`next_token` calls all return, the calls before some `N` produce non-`Eof`
tokens, and every call from `N` on produces `Eof`. -/
def lexerTerminatesWithEof (input : List Char) : Prop :=
  ∃ N, ∀ k, ∃ t s', callK k (lexerNew input) = some (t, s') ∧ (t.kind = .eof ↔ N ≤ k)

/-- The common conclusion of a `next_token` call that produced a token: the
resulting state is the normal form at `q`, the quote parity is preserved,
the position advanced, and `Eof` appears exactly past the end of input. -/
def StepOut (inp : List Char) (p : Nat) (r : Option (Token × LexState)) : Prop :=
  ∃ t q, r = some (t, stateAt inp q) ∧ Even (quotesFrom inp q) ∧ p < q ∧
    (t.kind = .eof → inp.length < q) ∧ (t.kind ≠ .eof → q ≤ inp.length)

/-! ### Definitions for the parser-recovery claim -/

/-- Modelled from the spec: "attempts to resynchronize by discarding tokens
up to the next statement boundary" — skip tokens until the current token is
a `;` or `Eof`.  (No such routine exists in `monkey/src/parser.rs`; this is
the spec's description, embedded for comparison.) -/
def resyncSkip : Nat → ParserState → Option ParserState
  | 0, _ => none
  | fuel + 1, st =>
    if st.current.kind ≠ .semicolon ∧ st.current.kind ≠ .eof then
      resyncSkip fuel (pAdvance st)
    else some st

/-- Modelled from the spec: the `parse_program` loop as §4.2 describes it —
on a statement-parse failure record the diagnostic, discard tokens up to the
next statement boundary, and resume after it. -/
def parseProgramResyncLoop : Nat → ParserState → List Statement → List Diagnostic →
    Option (List Statement × List Diagnostic × ParserState)
  | 0, _, _, _ => none
  | fuel + 1, st, program, errors =>
    if st.current.kind = .eof then some (program, errors, st)
    else
      match parseStatement fuel st with
      | none => none
      | some (.ok stmt, st') =>
        parseProgramResyncLoop fuel (pAdvance st') (program ++ [stmt]) errors
      | some (.error e, st') =>
        match resyncSkip fuel st' with
        | none => none
        | some st'' =>
          let st''' := if st''.current.kind = .semicolon then pAdvance st'' else st''
          parseProgramResyncLoop fuel st''' program (errors ++ [e])

/-- Modelled from the spec: `parse_program` with boundary resynchronization. -/
def parseProgramResync (fuel : Nat) (tokens : List Token) :
    Option (List Statement × List Diagnostic) :=
  match parseProgramResyncLoop fuel (parserNew tokens) [] [] with
  | none => none
  | some (program, errors, _) => some (program, errors)

/-! ### Claims -/

/-- **C1.**  Evaluating a function literal produces a `Function` value whose
captured environment is the very environment reference the literal was
evaluated in (shared, not copied: the store is unchanged and the closure
holds the same index); applying such a function evaluates its body in a
fresh environment frame whose parent (`outer`) is that captured reference;
and the closure program `let newAdder = fn(x) { fn(y) { x + y }; };
let addTwo = newAdder(2); addTwo(2);` evaluates end-to-end to `Integer(4)`. -/
theorem c1_closures_capture_defining_environment :
    (∀ (fuel : Nat) (params : List String) (body : List Statement) (env : Nat) (σ : Store),
      evalExpression (fuel + 1) (.functionLiteral params body) env σ =
        some (.ok (.function params body env, σ))) ∧
    (∀ (fuel : Nat) (params : List String) (body : List Statement) (envRef : Nat)
        (args : List Value) (σ : Store) (bindings : List (String × Value)),
      bindParams [] params args = some bindings →
      applyFunction (fuel + 1) (.function params body envRef) args σ =
        eBind (evalProgram fuel body σ.length
            (σ ++ [{ store := bindings, outer := some envRef }]))
          (fun evaluated σ₂ =>
            match evaluated with
            | .returnValue rc => some (.ok (rc, σ₂))
            | _ => some (.ok (evaluated, σ₂)))) ∧
    (runSource 99
        "let newAdder = fn(x) { fn(y) { x + y }; }; let addTwo = newAdder(2); addTwo(2);" =
      some (.ok (.integer 4), [])) := by
  refine ⟨fun fuel params body env σ => rfl, fun fuel params body envRef args σ bindings h => ?_, rfl⟩
  simp only [applyFunction, evalProgram, evalFns, evalLevel, h]

/-- Witness for the hypothesis-bearing conjunct of `c1`. -/
theorem c1_closures_capture_defining_environment_witness :
    bindParams [] ["x"] [Value.integer 2] = some [("x", Value.integer 2)] ∧
    applyFunction 5 (.function ["x"] [] 0) [.integer 2] [{ store := [], outer := none }] =
      eBind (evalProgram 4 [] 1
          ([{ store := [], outer := none }] ++ [{ store := [("x", Value.integer 2)], outer := some 0 }]))
        (fun evaluated σ₂ =>
          match evaluated with
          | .returnValue rc => some (.ok (rc, σ₂))
          | _ => some (.ok (evaluated, σ₂))) :=
  ⟨rfl, c1_closures_capture_defining_environment.2.1 4 ["x"] [] 0 [.integer 2]
    [{ store := [], outer := none }] [("x", Value.integer 2)] rfl⟩

/-- **C2.**  Statement sequences short-circuit on `ReturnValue`: if a
statement of a block evaluates to a `ReturnValue`-tagged value, the block
evaluates to that tagged value at once, whatever statements follow; if it
evaluates to an untagged value, evaluation continues with the rest of the
block against the same environment; and when a function body's result is
`ReturnValue`-tagged, `apply_function` unwraps it, so the tag does not
escape the call. -/
theorem c2_return_value_short_circuits :
    (∀ (fuel : Nat) (s : Statement) (rest : List Statement) (env : Nat) (σ σ' : Store)
        (v prev : Value),
      evalStatement fuel s env σ = some (.ok (.returnValue v, σ')) →
      evalProgramLoop (fuel + 1) (s :: rest) env σ prev = some (.ok (.returnValue v, σ'))) ∧
    (∀ (fuel : Nat) (s : Statement) (rest : List Statement) (env : Nat) (σ σ' : Store)
        (v prev : Value),
      evalStatement fuel s env σ = some (.ok (v, σ')) →
      (∀ w, v ≠ .returnValue w) →
      evalProgramLoop (fuel + 1) (s :: rest) env σ prev = evalProgramLoop fuel rest env σ' v) ∧
    (∀ (fuel : Nat) (params : List String) (body : List Statement) (envRef : Nat)
        (args : List Value) (σ σ₂ : Store) (bindings : List (String × Value)) (v : Value),
      bindParams [] params args = some bindings →
      evalProgram fuel body σ.length (σ ++ [{ store := bindings, outer := some envRef }]) =
        some (.ok (.returnValue v, σ₂)) →
      applyFunction (fuel + 1) (.function params body envRef) args σ = some (.ok (v, σ₂))) := by
  refine ⟨?_, ?_, ?_⟩
  · intro fuel s rest env σ σ' v prev h
    simp only [evalStatement] at h
    simp only [evalProgramLoop, evalFns, evalLevel, eBind, h]
  · intro fuel s rest env σ σ' v prev h hv
    simp only [evalStatement] at h
    cases v <;>
      first
        | exact absurd rfl (hv _)
        | simp only [evalProgramLoop, evalFns, evalLevel, eBind, h]
  · intro fuel params body envRef args σ σ₂ bindings v h₁ h₂
    simp only [evalProgram] at h₂
    simp only [applyFunction, evalFns, evalLevel, h₁, h₂, eBind]

/-- Witness for `c2`: `return 10; 9;` short-circuits; `9; …` continues; a
body `return 10;` applied through a function yields the untagged `10`. -/
theorem c2_return_value_short_circuits_witness :
    evalProgramLoop 4 [.returnStmt eofToken (.integerLiteral 10), .expr (.integerLiteral 9)]
        0 [{ store := [], outer := none }] .null =
      some (.ok (.returnValue (.integer 10), [{ store := [], outer := none }])) ∧
    evalProgramLoop 4 [.expr (.integerLiteral 9), .expr (.integerLiteral 7)]
        0 [{ store := [], outer := none }] .null =
      evalProgramLoop 3 [.expr (.integerLiteral 7)] 0 [{ store := [], outer := none }]
        (.integer 9) ∧
    applyFunction 10 (.function [] [.returnStmt eofToken (.integerLiteral 10)] 0) []
        [{ store := [], outer := none }] =
      some (.ok (.integer 10,
        [{ store := [], outer := none }, { store := [], outer := some 0 }])) := by
  refine ⟨c2_return_value_short_circuits.1 3 _ _ 0 _ _ _ _ rfl,
    c2_return_value_short_circuits.2.1 3 _ _ 0 _ _ _ _ rfl ?_,
    c2_return_value_short_circuits.2.2 9 [] _ 0 [] _ _ [] _ rfl rfl⟩
  intro w
  simp

/-- **C3.**  `if` branches on truthiness: exactly `Boolean(false)` and
`Null` are falsy — every other value, `Integer(0)` and the empty string
included, is truthy; the condition's value selects the consequence, the
alternative, or, when the condition is falsy and no alternative exists,
`Null`. -/
theorem c3_if_truthiness :
    (∀ v : Value, isTruthy v = false ↔ (v = .boolean false ∨ v = .null)) ∧
    isTruthy (.integer 0) = true ∧ isTruthy (.string "") = true ∧
    (∀ (fuel : Nat) (cond : Expression) (cons : List Statement)
        (alt : Option (List Statement)) (env : Nat) (σ σ' : Store) (c : Value),
      evalExpression fuel cond env σ = some (.ok (c, σ')) →
      evalExpression (fuel + 1) (.ifExpr cond cons alt) env σ =
        (if isTruthy c then evalProgram fuel cons env σ'
         else match alt with
           | some a => evalProgram fuel a env σ'
           | none => some (.ok (.null, σ')))) ∧
    (∀ (fuel : Nat) (cond : Expression) (cons : List Statement) (env : Nat)
        (σ σ' : Store) (c : Value),
      evalExpression fuel cond env σ = some (.ok (c, σ')) →
      isTruthy c = false →
      evalExpression (fuel + 1) (.ifExpr cond cons none) env σ = some (.ok (.null, σ'))) := by
  refine ⟨?_, rfl, rfl, ?_, ?_⟩
  · intro v
    cases v <;> simp [isTruthy]
  · intro fuel cond cons alt env σ σ' c h
    simp only [evalExpression] at h
    simp only [evalExpression, evalFns, evalLevel, evalProgram, eBind, h]
    cases hc : isTruthy c <;> simp [hc]
  · intro fuel cond cons env σ σ' c h hc
    simp only [evalExpression] at h
    simp only [evalExpression, evalFns, evalLevel, eBind, h, hc]

/-- Witness for `c3`: a falsy (`false`) and a truthy (`0`) condition. -/
theorem c3_if_truthiness_witness :
    evalExpression 3 (.ifExpr (.boolean false) [.expr (.integerLiteral 10)] none)
        0 [{ store := [], outer := none }] =
      some (.ok (.null, [{ store := [], outer := none }])) ∧
    evalExpression 3 (.ifExpr (.integerLiteral 0) [.expr (.integerLiteral 10)] none)
        0 [{ store := [], outer := none }] =
      (if isTruthy (.integer 0)
       then evalProgram 2 [.expr (.integerLiteral 10)] 0 [{ store := [], outer := none }]
       else some (.ok (.null, [{ store := [], outer := none }]))) :=
  ⟨c3_if_truthiness.2.2.2.2 2 _ _ 0 _ _ _ rfl rfl,
   c3_if_truthiness.2.2.2.1 2 _ _ none 0 _ _ _ rfl⟩

/-- **C4.**  Infix evaluation checks the operand type tags first: different
tags fail with the type-mismatch error naming both types (whatever the
operator — `5 + true` reports `INTEGER + BOOLEAN`); equal tags with a
`(type, operator, type)` combination outside the supported table (integer
arithmetic/comparison, boolean equality, string `+`) fail with the
unknown-operator error. -/
theorem c4_infix_type_mismatch_before_operator :
    (∀ (left right : Value) (operator lt rt : String),
      lt = left.typeOf → rt = right.typeOf → lt ≠ rt →
      evalInfixExpression operator left right =
        .error s!"type mismatch: {lt} {operator} {rt}") ∧
    (∀ (left right : Value) (operator lt rt : String),
      lt = left.typeOf → rt = right.typeOf → lt = rt →
      infixSupported left operator right = false →
      evalInfixExpression operator left right =
        .error s!"unknown operator: {lt} {operator} {rt}") ∧
    runSource 99 "5 + true;" = some (.error "type mismatch: INTEGER + BOOLEAN", []) := by
  refine ⟨?_, ?_, rfl⟩
  · intro left right operator lt rt h1 h2 hne
    subst h1; subst h2
    have hcond : right.typeOf ≠ left.typeOf := Ne.symm hne
    simp [evalInfixExpression, hcond]
  · intro left right operator lt rt h1 h2 heq hns
    subst h1; subst h2
    cases left <;> cases right <;>
      first
        | exact absurd heq (by decide)
        | simp_all [evalInfixExpression, infixSupported, Value.typeOf]

/-- Witness for `c4`: `5 + true` (mismatched tags), `true + false` and
`"a" < "b"` (same tags, unsupported combination). -/
theorem c4_infix_type_mismatch_before_operator_witness :
    evalInfixExpression "+" (.integer 5) (.boolean true) =
      .error "type mismatch: INTEGER + BOOLEAN" ∧
    evalInfixExpression "+" (.boolean true) (.boolean false) =
      .error "unknown operator: BOOLEAN + BOOLEAN" ∧
    evalInfixExpression "<" (.string "a") (.string "b") =
      .error "unknown operator: STRING < STRING" :=
  ⟨c4_infix_type_mismatch_before_operator.1 (.integer 5) (.boolean true) "+"
      "INTEGER" "BOOLEAN" rfl rfl (by decide),
   c4_infix_type_mismatch_before_operator.2.1 (.boolean true) (.boolean false) "+"
      "BOOLEAN" "BOOLEAN" rfl rfl rfl (by decide),
   c4_infix_type_mismatch_before_operator.2.1 (.string "a") (.string "b") "<"
      "STRING" "STRING" rfl rfl rfl (by decide)⟩

/-- **C6.**  The precedence order is
`Lowest < Equals < LessGreater < Sum < Product < Prefix < Call < Index`;
every prefix node and every infix node of *any* expression renders fully
parenthesized; for *every* pair of binary operators `op1`, `op2`, parsing
`a op1 b op2 c` groups to the right exactly when `op1` has lower precedence
than `op2` and to the left otherwise (so equal precedence is
left-associative); `-a op b` always groups the prefix minus first; and
parsing then rendering the spec's example expressions yields exactly the
fully parenthesized canonical forms (with `a + b + c` showing left
associativity concretely). -/
theorem c6_precedence_and_canonical_rendering :
    (Precedence.lt .lowest .equals = true ∧
     Precedence.lt .equals .lessGreater = true ∧
     Precedence.lt .lessGreater .sum = true ∧
     Precedence.lt .sum .product = true ∧
     Precedence.lt .product .pre = true ∧
     Precedence.lt .pre .call = true ∧
     Precedence.lt .call .index = true) ∧
    (∀ (fuel : Nat) (t : Token) (op : String) (r : Expression) (rs : String),
      renderExpr fuel r = some rs →
      renderExpr (fuel + 1) (.preExpr t op r) = some ("(" ++ op ++ rs ++ ")")) ∧
    (∀ (fuel : Nat) (t : Token) (op : String) (l r : Expression) (ls rs : String),
      renderExpr fuel l = some ls → renderExpr fuel r = some rs →
      renderExpr (fuel + 1) (.infExpr t op l r) =
        some ("(" ++ ls ++ " " ++ op ++ " " ++ rs ++ ")")) ∧
    (∀ op1 ∈ infixOpKinds, ∀ op2 ∈ infixOpKinds,
      parseAndRender 99 ("a " ++ op1.toStr ++ " b " ++ op2.toStr ++ " c") =
        some (if Precedence.lt (tokenPrecedence (Token.new op1 0 0))
                  (tokenPrecedence (Token.new op2 0 0))
              then "(a " ++ op1.toStr ++ " (b " ++ op2.toStr ++ " c))"
              else "((a " ++ op1.toStr ++ " b) " ++ op2.toStr ++ " c)")) ∧
    (∀ op ∈ infixOpKinds,
      parseAndRender 99 ("-a " ++ op.toStr ++ " b") =
        some ("((-a) " ++ op.toStr ++ " b)")) ∧
    parseAndRender 99 "a + b * c" = some "(a + (b * c))" ∧
    parseAndRender 99 "-a * b" = some "((-a) * b)" ∧
    parseAndRender 99 "a + b + c" = some "((a + b) + c)" ∧
    parseAndRender 99 "3 + 4 * 5 == 3 * 1 + 4 * 5" =
      some "((3 + (4 * 5)) == ((3 * 1) + (4 * 5)))" := by
  refine ⟨⟨rfl, rfl, rfl, rfl, rfl, rfl, rfl⟩, ?_, ?_, ?_, ?_, rfl, rfl, rfl, rfl⟩
  · intro fuel t op r rs hr
    simp only [renderExpr] at hr
    simp only [renderExpr, renderFns, renderLevel, hr]
  · intro fuel t op l r ls rs hl hr
    simp only [renderExpr] at hl hr
    simp only [renderExpr, renderFns, renderLevel, hl, hr]
  · decide
  · decide

/-- Witness for `c6_precedence_and_canonical_rendering`: the universal
operator-pair conjunct at `+`, `*` and the universal infix-rendering
conjunct at `a + b`. -/
theorem c6_precedence_and_canonical_rendering_witness :
    (parseAndRender 99 ("a " ++ TokenKind.plus.toStr ++ " b " ++
        TokenKind.asterisk.toStr ++ " c") =
      some (if Precedence.lt (tokenPrecedence (Token.new .plus 0 0))
                (tokenPrecedence (Token.new .asterisk 0 0))
            then "(a " ++ TokenKind.plus.toStr ++ " (b " ++
              TokenKind.asterisk.toStr ++ " c))"
            else "((a " ++ TokenKind.plus.toStr ++ " b) " ++
              TokenKind.asterisk.toStr ++ " c)")) ∧
    renderExpr (1 + 1) (.infExpr (Token.new .plus 0 0) "+" (.ident "a") (.ident "b")) =
      some ("(" ++ "a" ++ " " ++ "+" ++ " " ++ "b" ++ ")") :=
  ⟨c6_precedence_and_canonical_rendering.2.2.2.1 .plus (by decide) .asterisk (by decide),
   c6_precedence_and_canonical_rendering.2.2.1 1 (Token.new .plus 0 0) "+"
     (.ident "a") (.ident "b") "a" "b" rfl rfl⟩

/-- **C5.**  Indexing: an `Array` indexed by an out-of-range `Integer`
(negative or ≥ length — in particular any index into an empty array) is
`Null`, not an error; a `Hash` indexed by a hashable key yields the mapped
value, or `Null` when the key is absent; a `Hash` indexed by a non-hashable
kind fails with the unusable-as-hash-key error. -/
theorem c5_index_out_of_range_and_hash_lookup :
    (∀ (elems : List Value) (idx : Int),
      idx < 0 ∨ (elems.length : Int) ≤ idx →
      evalIndexExpression (.array elems) (.integer idx) = .ok .null) ∧
    (∀ idx : Int, evalIndexExpression (.array []) (.integer idx) = .ok .null) ∧
    (∀ (pairs : List (Value × Value)) (key : Value),
      key.isHashable = true →
      evalIndexExpression (.hash pairs) key = .ok ((hashGet pairs key).getD .null)) ∧
    (∀ (pairs : List (Value × Value)) (key : Value) (kt : String),
      key.isHashable = false →
      kt = key.typeOf →
      evalIndexExpression (.hash pairs) key = .error s!"unusable as hash key: {kt}") := by
  have harr : ∀ (elems : List Value) (idx : Int),
      idx < 0 ∨ (elems.length : Int) ≤ idx →
      evalIndexExpression (.array elems) (.integer idx) = .ok .null := by
    intro elems idx h
    have hcond : idx < 0 ∨ (elems.length : Int) - 1 < idx := by omega
    simp only [evalIndexExpression, if_pos hcond]
  refine ⟨harr, ?_, ?_, ?_⟩
  · intro idx
    apply harr
    simp
    omega
  · intro pairs key hk
    simp only [evalIndexExpression]
    cases key <;> simp_all [Value.isHashable] <;> cases h : hashGet pairs _ <;> simp [h]
  · intro pairs key kt hk hkt
    subst hkt
    cases key <;> simp_all [Value.isHashable, evalIndexExpression]

/-- Witness for `c5`: `[1,2,3][3]`, `[][0]`, a hit, a miss, and an array
used as a hash key. -/
theorem c5_index_out_of_range_and_hash_lookup_witness :
    evalIndexExpression (.array [.integer 1, .integer 2, .integer 3]) (.integer 3) =
      .ok .null ∧
    evalIndexExpression (.array []) (.integer 0) = .ok .null ∧
    evalIndexExpression (.hash [(.string "one", .integer 1)]) (.string "one") =
      .ok ((hashGet [(.string "one", .integer 1)] (.string "one")).getD .null) ∧
    evalIndexExpression (.hash [(.string "one", .integer 1)]) (.string "two") =
      .ok ((hashGet [(.string "one", .integer 1)] (.string "two")).getD .null) ∧
    evalIndexExpression (.hash [(.string "one", .integer 1)]) (.array []) =
      .error "unusable as hash key: ARRAY" :=
  ⟨c5_index_out_of_range_and_hash_lookup.1 _ 3 (by norm_num),
   c5_index_out_of_range_and_hash_lookup.2.1 0,
   c5_index_out_of_range_and_hash_lookup.2.2.1 _ _ rfl,
   c5_index_out_of_range_and_hash_lookup.2.2.1 _ _ rfl,
   c5_index_out_of_range_and_hash_lookup.2.2.2 _ _ "ARRAY" rfl rfl⟩

/-- **C7 (counterexample).**  On `"let x 5; 7;"` the parser records the one
diagnostic but does *not* discard the malformed statement's remaining tokens
up to the statement boundary: the leftover `5` is parsed as a further
expression statement, so the program comes back as `[5, 7]`, where the
spec-modelled discard-to-boundary recovery (`parseProgramResync`) yields
`[7]` with the same diagnostic. -/
theorem c7_resync_counterexample :
    parseSource 99 "let x 5; 7;" =
      some ([.expr (.integerLiteral 5), .expr (.integerLiteral 7)],
        [{ message := "Expected Assignment", span := some { start := 6, stop := 6 },
           help := some "Use `=` after the identifier" }]) ∧
    (lexSource 99 "let x 5; 7;").bind (parseProgramResync 99) =
      some ([.expr (.integerLiteral 7)],
        [{ message := "Expected Assignment", span := some { start := 6, stop := 6 },
           help := some "Use `=` after the identifier" }]) ∧
    ([Statement.expr (.integerLiteral 5), Statement.expr (.integerLiteral 7)] :
        List Statement) ≠ [Statement.expr (.integerLiteral 7)] := by
  refine ⟨rfl, rfl, ?_⟩
  simp

/-- **C7 (amended).**  `parse_program` never aborts on a malformed
statement: a failing statement parse contributes its diagnostic and the loop
continues at the very next token (no discarding to a statement boundary);
the returned diagnostics extend the accumulator, never replacing it (all
failures of one call are returned together); and a source with two malformed
`let` statements parses through to EOF with both diagnostics and the
following statements intact. -/
theorem c7_all_diagnostics_accumulate :
    (∀ (fuel : Nat) (st : ParserState) (program : List Statement)
        (errors : List Diagnostic) (d : Diagnostic) (st' : ParserState),
      st.current.kind ≠ .eof →
      parseStatement fuel st = some (.error d, st') →
      parseProgramLoop (fuel + 1) st program errors =
        parseProgramLoop fuel (pAdvance st') program (errors ++ [d])) ∧
    (∀ (fuel : Nat) (st : ParserState) (program : List Statement)
        (errors : List Diagnostic) (out : List Statement × List Diagnostic × ParserState),
      parseProgramLoop fuel st program errors = some out →
      ∃ tail, out.2.1 = errors ++ tail) ∧
    parseSource 99 "let x 5; let y 6; 7;" =
      some ([.expr (.integerLiteral 5), .expr (.integerLiteral 6), .expr (.integerLiteral 7)],
        [{ message := "Expected Assignment", span := some { start := 6, stop := 6 },
           help := some "Use `=` after the identifier" },
         { message := "Expected Assignment", span := some { start := 15, stop := 15 },
           help := some "Use `=` after the identifier" }]) := by
  refine ⟨?_, ?_, rfl⟩
  · intro fuel st program errors d st' h1 h2
    simp only [parseStatement] at h2
    simp [parseProgramLoop, parseFns, parseLevel, h1, h2]
  · intro fuel st program errors out h
    induction fuel generalizing st program errors out with
    | zero => exact absurd h (by simp [parseProgramLoop, parseFns, parseBot])
    | succ f ih =>
      simp only [parseProgramLoop, parseFns, parseLevel] at h
      by_cases he : st.current.kind = .eof
      · rw [if_pos he] at h
        obtain rfl : (program, errors, st) = out := Option.some.inj h
        exact ⟨[], (List.append_nil errors).symm⟩
      · rw [if_neg he] at h
        cases hps : (parseFns f).statement st with
        | none => rw [hps] at h; exact absurd h (by simp)
        | some r =>
          obtain ⟨res, st'⟩ := r
          cases res with
          | ok stmt =>
            rw [hps] at h
            exact ih _ _ _ _ h
          | error e =>
            rw [hps] at h
            obtain ⟨tail, ht⟩ := ih _ _ _ _ h
            exact ⟨e :: tail, by rw [ht]; simp⟩

/-- Witness for `c7_all_diagnostics_accumulate`: the one-token recovery step
on the tokens of `"let x 5; 7;"`, and the accumulated diagnostics of the
finished parse extending the empty accumulator. -/
theorem c7_all_diagnostics_accumulate_witness :
    parseProgramLoop 99
        (parserNew [Token.new .kwLet 0 2, Token.new (.ident "x") 4 4,
          Token.new (.int "5") 6 6, Token.new .semicolon 7 7, Token.new (.int "7") 9 9,
          Token.new .semicolon 10 10, Token.new .eof 11 11]) [] [] =
      parseProgramLoop 98
        (pAdvance (ParserState.mk (Token.new (.ident "x") 4 4) (Token.new (.int "5") 6 6)
          [Token.new .semicolon 7 7, Token.new (.int "7") 9 9,
           Token.new .semicolon 10 10, Token.new .eof 11 11])) []
        ([] ++ [{ message := "Expected Assignment", span := some { start := 6, stop := 6 },
                  help := some "Use `=` after the identifier" }]) ∧
    (∃ tail, ([{ message := "Expected Assignment", span := some { start := 6, stop := 6 },
                 help := some "Use `=` after the identifier" }] : List Diagnostic) =
      [] ++ tail) :=
  ⟨c7_all_diagnostics_accumulate.1 98 _ [] [] _ _ (by decide) rfl,
   c7_all_diagnostics_accumulate.2.1 99
     (parserNew [Token.new .kwLet 0 2, Token.new (.ident "x") 4 4,
       Token.new (.int "5") 6 6, Token.new .semicolon 7 7, Token.new (.int "7") 9 9,
       Token.new .semicolon 10 10, Token.new .eof 11 11]) [] []
     ([.expr (.integerLiteral 5), .expr (.integerLiteral 7)],
      [{ message := "Expected Assignment", span := some { start := 6, stop := 6 },
         help := some "Use `=` after the identifier" }],
      ParserState.mk (Token.new .eof 11 11) (Token.new .eof 0 0) []) rfl⟩

/-- **C8.**  `push` returns a *new* array — the argument's elements with the
value appended — and the original binding is unchanged: after
`let a = [1, 2]; let b = push(a, 3);` the binding `a` still evaluates to
`[1, 2]` while `b` evaluates to `[1, 2, 3]`. -/
theorem c8_push_is_persistent :
    (∀ (elems : List Value) (x : Value),
      builtinPush [.array elems, x] = .ok (.array (elems ++ [x]))) ∧
    builtinPush [.array [.integer 1, .integer 2], .integer 3] =
      .ok (.array [.integer 1, .integer 2, .integer 3]) ∧
    runSource 99 "let a = [1, 2]; let b = push(a, 3); a;" =
      some (.ok (.array [.integer 1, .integer 2]), []) ∧
    runSource 99 "let a = [1, 2]; let b = push(a, 3); b;" =
      some (.ok (.array [.integer 1, .integer 2, .integer 3]), []) :=
  ⟨fun _ _ => rfl, rfl, rfl, rfl⟩

/-- **C10.**  Calling a user function with at least as many arguments as
parameters succeeds in binding: the application equals the application to
just the first `n` arguments (surplus arguments are silently ignored, no
error), the binding loop completes, and `let f = fn(x) { x; }; f(1, 2);`
evaluates to `Integer(1)`. -/
theorem c10_surplus_arguments_ignored :
    (∀ (fuel : Nat) (params : List String) (body : List Statement) (envRef : Nat)
        (args : List Value) (σ : Store),
      params.length ≤ args.length →
      applyFunction fuel (.function params body envRef) args σ =
        applyFunction fuel (.function params body envRef) (args.take params.length) σ) ∧
    (∀ (params : List String) (args : List Value) (store : List (String × Value)),
      params.length ≤ args.length →
      ∃ bindings, bindParams store params args = some bindings) ∧
    runSource 99 "let f = fn(x) { x; }; f(1, 2);" = some (.ok (.integer 1), []) := by
  have hbind : ∀ (params : List String) (args : List Value) (store : List (String × Value)),
      params.length ≤ args.length →
      bindParams store params args = bindParams store params (args.take params.length) := by
    intro params
    induction params with
    | nil => intro args store _ ; rfl
    | cons p ps ih =>
      intro args store h
      cases args with
      | nil => simp at h
      | cons a as_ =>
        simp only [List.length_cons, add_le_add_iff_right] at h
        simp only [List.take_succ_cons, bindParams]
        exact ih as_ (frameSet store p a) h
  refine ⟨?_, ?_, rfl⟩
  · intro fuel params body envRef args σ h
    cases fuel with
    | zero => rfl
    | succ f =>
      simp only [applyFunction, evalFns, evalLevel]
      rw [hbind params args [] h]
  · intro params
    induction params with
    | nil => intro args store _ ; exact ⟨store, rfl⟩
    | cons p ps ih =>
      intro args store h
      cases args with
      | nil => simp at h
      | cons a as_ =>
        simp only [List.length_cons, add_le_add_iff_right] at h
        exact ih as_ (frameSet store p a) h

/-- Witness for `c10`: one parameter, two arguments. -/
theorem c10_surplus_arguments_ignored_witness :
    applyFunction 5 (.function ["x"] [.expr (.ident "x")] 0) [.integer 1, .integer 2]
        [{ store := [], outer := none }] =
      applyFunction 5 (.function ["x"] [.expr (.ident "x")] 0) [.integer 1]
        [{ store := [], outer := none }] ∧
    (∃ bindings, bindParams [] ["x"] [Value.integer 1, Value.integer 2] = some bindings) :=
  ⟨c10_surplus_arguments_ignored.1 5 ["x"] [.expr (.ident "x")] 0
      [.integer 1, .integer 2] [{ store := [], outer := none }] (by simp),
   c10_surplus_arguments_ignored.2.1 ["x"] [.integer 1, .integer 2] [] (by simp)⟩

/-! ### Lexer-termination lemmas (for C9)

Every reachable lexer state is `stateAt input p` for some position `p`
(`read_position = position + 1`, `ch` the character under `position`); the
lemmas below drive `next_token` one call at a time in this normal form. -/

theorem readChar_stateAt (inp : List Char) (p : Nat) :
    readChar (stateAt inp p) = stateAt inp (p + 1) := by
  by_cases h : inp.length ≤ p + 1
  · simp [readChar, stateAt, h, List.get?_eq_none.mpr h]
  · simp [readChar, stateAt, h]

theorem lexerNew_stateAt (inp : List Char) : lexerNew inp = stateAt inp 0 := by
  by_cases h : inp.length ≤ 0
  · simp [lexerNew, readChar, stateAt, h, List.get?_eq_none.mpr h]
  · simp [lexerNew, readChar, stateAt, h]

theorem stateAt_ch (inp : List Char) (p : Nat) : (stateAt inp p).ch = inp.get? p := rfl

theorem stateAt_input (inp : List Char) (p : Nat) : (stateAt inp p).input = inp := rfl

theorem peekChar_stateAt (inp : List Char) (p : Nat) :
    peekChar (stateAt inp p) = inp.get? (p + 1) := rfl

/-- The scanning loops stop at the first position failing their predicate. -/
theorem advanceWhile_stateAt (pred : Char → Bool) :
    ∀ (j fuel : Nat) (inp : List Char) (p : Nat), j < fuel →
    (∀ i, i < j → ((inp.get? (p + i)).any pred) = true) →
    ((inp.get? (p + j)).any pred) = false →
    advanceWhile pred fuel (stateAt inp p) = some (stateAt inp (p + j)) := by
  intro j
  induction j with
  | zero =>
    intro fuel inp p hf _ hstop
    rw [Nat.add_zero] at hstop
    cases fuel with
    | zero => omega
    | succ f =>
      simp only [advanceWhile, stateAt_ch]
      cases hc : inp.get? p with
      | none => simp
      | some c =>
        rw [hc] at hstop
        simp only [Option.any_some] at hstop
        simp [hstop]
  | succ k ih =>
    intro fuel inp p hf hall hstop
    cases fuel with
    | zero => omega
    | succ f =>
      have h0 := hall 0 (Nat.succ_pos k)
      rw [Nat.add_zero] at h0
      cases hc : inp.get? p with
      | none => rw [hc] at h0; simp at h0
      | some c =>
        rw [hc] at h0
        simp only [Option.any_some] at h0
        simp only [advanceWhile, stateAt_ch, hc, h0, if_true, readChar_stateAt]
        have hall' : ∀ i, i < k → ((inp.get? (p + 1 + i)).any pred) = true := by
          intro i hi
          have := hall (i + 1) (by omega)
          rwa [show p + (i + 1) = p + 1 + i by omega] at this
        have hstop' : ((inp.get? (p + 1 + k)).any pred) = false := by
          rwa [show p + (k + 1) = p + 1 + k by omega] at hstop
        rw [ih f inp (p + 1) (by omega) hall' hstop',
          show p + 1 + k = p + (k + 1) by omega]

/-- The string-scanning loop stops just at the first `"` strictly after the
opening position. -/
theorem readStringLoop_stateAt :
    ∀ (j fuel : Nat) (inp : List Char) (p : Nat), j < fuel →
    (∀ i, i < j → inp.get? (p + 1 + i) ≠ some '"') →
    inp.get? (p + 1 + j) = some '"' →
    readStringLoop fuel (stateAt inp p) = some (stateAt inp (p + 1 + j)) := by
  intro j
  induction j with
  | zero =>
    intro fuel inp p hf _ hquote
    cases fuel with
    | zero => omega
    | succ f =>
      rw [Nat.add_zero] at hquote
      simp only [readStringLoop, readChar_stateAt, stateAt_ch]
      rw [if_pos hquote]
  | succ k ih =>
    intro fuel inp p hf hnone hquote
    cases fuel with
    | zero => omega
    | succ f =>
      have h0 := hnone 0 (Nat.succ_pos k)
      rw [Nat.add_zero] at h0
      simp only [readStringLoop, readChar_stateAt, stateAt_ch]
      rw [if_neg h0]
      have hnone' : ∀ i, i < k → inp.get? (p + 1 + 1 + i) ≠ some '"' := by
        intro i hi
        have := hnone (i + 1) (by omega)
        rwa [show p + 1 + (i + 1) = p + 1 + 1 + i by omega] at this
      have hquote' : inp.get? (p + 1 + 1 + k) = some '"' := by
        rwa [show p + 1 + (k + 1) = p + 1 + 1 + k by omega] at hquote
      rw [ih f inp (p + 1) (by omega) hnone' hquote',
        show p + 1 + 1 + k = p + 1 + (k + 1) by omega]

/-- With no closing `"` ahead, the string-scanning loop never returns — the
source's infinite loop on an unterminated string literal. -/
theorem readStringLoop_none :
    ∀ (fuel : Nat) (inp : List Char) (p : Nat),
    (∀ j, inp.get? (p + 1 + j) ≠ some '"') →
    readStringLoop fuel (stateAt inp p) = none := by
  intro fuel
  induction fuel with
  | zero => intro inp p _; rfl
  | succ f ih =>
    intro inp p hnone
    have h0 := hnone 0
    rw [Nat.add_zero] at h0
    simp only [readStringLoop, readChar_stateAt, stateAt_ch]
    rw [if_neg h0]
    apply ih
    intro j
    have := hnone (j + 1)
    rwa [show p + 1 + (j + 1) = p + 1 + 1 + j by omega] at this

/-! Counting the `"` characters ahead of the current position. -/

theorem quotesFrom_past (inp : List Char) (p : Nat) (h : inp.length ≤ p) :
    quotesFrom inp p = 0 := by
  unfold quotesFrom
  rw [List.drop_eq_nil_of_le h]
  rfl

theorem quotesFrom_succ_of_ne (inp : List Char) (p : Nat)
    (h : inp.get? p ≠ some '"') : quotesFrom inp p = quotesFrom inp (p + 1) := by
  unfold quotesFrom
  by_cases hp : p < inp.length
  · rw [List.drop_eq_getElem_cons hp, List.count_cons]
    have hne : ¬ inp[p] = '"' := by
      intro hq
      apply h
      rw [List.get?_eq_getElem?, List.getElem?_eq_getElem hp, hq]
    simp [hne]
  · rw [List.drop_eq_nil_of_le (by omega), List.drop_eq_nil_of_le (by omega)]

theorem quotesFrom_succ_of_quote (inp : List Char) (p : Nat)
    (h : inp.get? p = some '"') : quotesFrom inp p = quotesFrom inp (p + 1) + 1 := by
  unfold quotesFrom
  have hp : p < inp.length := by
    by_contra hc
    rw [List.get?_eq_none.mpr (by omega)] at h
    exact Option.noConfusion h
  rw [List.drop_eq_getElem_cons hp, List.count_cons]
  have heq : inp[p] = '"' := by
    have hg := List.getElem?_eq_getElem hp (l := inp)
    rw [List.get?_eq_getElem?, hg] at h
    exact Option.some.inj h
  simp [heq]

/-- Stepping over a quote-free range preserves the count. -/
theorem quotesFrom_add_of_no_quote (inp : List Char) (p : Nat) :
    ∀ (k : Nat), (∀ i, i < k → inp.get? (p + i) ≠ some '"') →
    quotesFrom inp p = quotesFrom inp (p + k) := by
  intro k
  induction k generalizing p with
  | zero => intro _; rfl
  | succ m ih =>
    intro h
    have h0 := h 0 (Nat.succ_pos m)
    rw [Nat.add_zero] at h0
    rw [quotesFrom_succ_of_ne inp p h0]
    have := ih (p + 1) (fun i hi => by
      have := h (i + 1) (by omega)
      rwa [show p + (i + 1) = p + 1 + i by omega] at this)
    rw [this, show p + 1 + m = p + (m + 1) by omega]

theorem stateAt_position (inp : List Char) (p : Nat) : (stateAt inp p).position = p := rfl

theorem get?_some_lt {inp : List Char} {n : Nat} {c : Char}
    (h : inp.get? n = some c) : n < inp.length := by
  by_contra hcon
  rw [List.get?_eq_none.mpr (by omega)] at h
  exact Option.noConfusion h

theorem lookupIdent_ne_eof (s : String) : TokenKind.lookupIdent (.ident s) ≠ .eof := by
  simp only [TokenKind.lookupIdent]
  split_ifs <;> simp

theorem isLetter_ne_quote {c : Char} (h : isLetter c = true) : c ≠ '"' := by
  intro hq
  subst hq
  exact absurd h (by decide)

theorem isDigit_ne_quote {c : Char} (h : isDigit c = true) : c ≠ '"' := by
  intro hq
  subst hq
  exact absurd h (by decide)

theorem isAsciiWhitespace_ne_quote {c : Char} (h : isAsciiWhitespace c = true) :
    c ≠ '"' := by
  intro hq
  subst hq
  exact absurd h (by decide)

/-! On ASCII input, byte and character indices of the source coincide, so
the byte-indexed slices cannot panic and equal the character-index slices. -/

theorem utf8Width_one {c : Char} (h : c.toNat < 128) : utf8Width c = 1 := by
  unfold utf8Width
  rw [if_pos h]

theorem dropUtf8_ascii : ∀ (l : List Char) (a : Nat), (∀ c ∈ l, c.toNat < 128) →
    a ≤ l.length → dropUtf8 l a = some (l.drop a) := by
  intro l
  induction l with
  | nil =>
    intro a _ ha
    have h0 : a = 0 := by simpa using ha
    subst h0
    rfl
  | cons c cs ih =>
    intro a hascii ha
    cases a with
    | zero => rfl
    | succ n =>
      have hw : utf8Width c = 1 := utf8Width_one (hascii c (by simp))
      simp only [dropUtf8, hw, Nat.add_sub_cancel]
      rw [if_pos (by omega)]
      rw [ih n (fun x hx => hascii x (by simp [hx]))
        (by simp only [List.length_cons] at ha; omega)]
      rfl

theorem takeUtf8_ascii : ∀ (l : List Char) (n : Nat), (∀ c ∈ l, c.toNat < 128) →
    n ≤ l.length → takeUtf8 l n = some (l.take n) := by
  intro l
  induction l with
  | nil =>
    intro n _ hn
    have h0 : n = 0 := by simpa using hn
    subst h0
    rfl
  | cons c cs ih =>
    intro n hascii hn
    cases n with
    | zero => rfl
    | succ m =>
      have hw : utf8Width c = 1 := utf8Width_one (hascii c (by simp))
      simp only [takeUtf8, hw, Nat.add_sub_cancel]
      rw [if_pos (by omega)]
      rw [ih m (fun x hx => hascii x (by simp [hx]))
        (by simp only [List.length_cons] at hn; omega)]
      rfl

theorem slice_ascii (l : List Char) (a b : Nat) (hascii : ∀ c ∈ l, c.toNat < 128)
    (hab : a ≤ b) (hb : b ≤ l.length) :
    slice l a b = some (String.mk ((l.drop a).take (b - a))) := by
  have hd : dropUtf8 l a = some (l.drop a) := dropUtf8_ascii l a hascii (by omega)
  have ht : takeUtf8 (l.drop a) (b - a) = some ((l.drop a).take (b - a)) :=
    takeUtf8_ascii (l.drop a) (b - a)
      (fun c hc => hascii c (List.mem_of_mem_drop hc))
      (by rw [List.length_drop]; omega)
  simp only [slice, if_pos hab, hd, ht]

/-- A one-character token at position `w` (every punctuation arm of
`next_token`). -/
theorem singleCharTokenStep (inp : List Char) (p w : Nat) (c : Char) (k : TokenKind)
    (hk : k ≠ .eof) (hc : inp.get? w = some c) (hcq : c ≠ '"')
    (hq0 : quotesFrom inp p = quotesFrom inp w) (heven : Even (quotesFrom inp p))
    (hpw : p ≤ w) :
    StepOut inp p (some (Token.new k w w, readChar (stateAt inp w))) := by
  have hwlen : w < inp.length := get?_some_lt hc
  have hne : inp.get? w ≠ some '"' := by rw [hc]; intro h; exact hcq (Option.some.inj h)
  refine ⟨Token.new k w w, w + 1, by rw [readChar_stateAt], ?_, by omega, ?_, by omega⟩
  · rw [← quotesFrom_succ_of_ne inp w hne, ← hq0]
    exact heven
  · intro h
    exact absurd h hk

/-- A two-character token (`==`, `!=`) starting at position `w`. -/
theorem twoCharTokenStep (inp : List Char) (p w : Nat) (c c' : Char) (k : TokenKind)
    (hk : k ≠ .eof) (hc : inp.get? w = some c) (hc' : inp.get? (w + 1) = some c')
    (hcq : c ≠ '"') (hcq' : c' ≠ '"')
    (hq0 : quotesFrom inp p = quotesFrom inp w) (heven : Even (quotesFrom inp p))
    (hpw : p ≤ w) :
    StepOut inp p (some (Token.new k w (w + 1), readChar (stateAt inp (w + 1)))) := by
  have hwlen : w + 1 < inp.length := get?_some_lt hc'
  have hne : inp.get? w ≠ some '"' := by rw [hc]; intro h; exact hcq (Option.some.inj h)
  have hne' : inp.get? (w + 1) ≠ some '"' := by
    rw [hc']; intro h; exact hcq' (Option.some.inj h)
  refine ⟨Token.new k w (w + 1), w + 2, by rw [readChar_stateAt], ?_, by omega, ?_, by omega⟩
  · rw [show w + 2 = w + 1 + 1 by omega, ← quotesFrom_succ_of_ne inp (w + 1) hne',
      ← quotesFrom_succ_of_ne inp w hne, ← hq0]
    exact heven
  · intro h
    exact absurd h hk

/-- The bracket, string, identifier, number and illegal arms of
`next_token` (the tail of its character dispatch), from the first
non-whitespace position `w`. -/
theorem nextToken_step_tail (inp : List Char) (p w : Nat) (c : Char)
    (hascii : ∀ ch ∈ inp, ch.toNat < 128)
    (heven : Even (quotesFrom inp p)) (hpw : p ≤ w)
    (hq0 : quotesFrom inp p = quotesFrom inp w)
    (hcw : inp.get? w = some c)
    (h1 : ¬c = '=') (h2 : ¬c = '+') (h3 : ¬c = '-') (h4 : ¬c = '!') (h5 : ¬c = '/')
    (h6 : ¬c = '*') (h7 : ¬c = '<') (h8 : ¬c = '>') (h9 : ¬c = ';') (h10 : ¬c = ',') :
    StepOut inp p (
      if c = '(' then some (Token.new .lparen w w, readChar (stateAt inp w))
      else if c = ')' then some (Token.new .rparen w w, readChar (stateAt inp w))
      else if c = '\x7b' then some (Token.new .lbrace w w, readChar (stateAt inp w))
      else if c = '\x7d' then some (Token.new .rbrace w w, readChar (stateAt inp w))
      else if c = '[' then some (Token.new .lbracket w w, readChar (stateAt inp w))
      else if c = ']' then some (Token.new .rbracket w w, readChar (stateAt inp w))
      else if c = '"' then
        match readString (inp.length + 2) (stateAt inp w) with
        | none => none
        | some (lit, sp, s') => some ({ kind := .string lit, span := sp }, readChar s')
      else if isLetter c then
        match readIdentfier (inp.length + 2) (stateAt inp w) with
        | none => none
        | some (lit, sp, s') =>
          some ({ kind := TokenKind.lookupIdent (.ident lit), span := sp }, s')
      else if isDigit c then
        match readNumber (inp.length + 2) (stateAt inp w) with
        | none => none
        | some (lit, sp, s') => some ({ kind := .int lit, span := sp }, s')
      else some (Token.new .illegal w w, readChar (stateAt inp w))) := by
  have hevenw : Even (quotesFrom inp w) := hq0 ▸ heven
  by_cases hc11 : c = '('
  · rw [if_pos hc11]
    subst hc11
    exact singleCharTokenStep inp p w '(' .lparen (by decide) hcw (by decide)
      hq0 heven hpw
  · rw [if_neg hc11]
    by_cases hc12 : c = ')'
    · rw [if_pos hc12]
      subst hc12
      exact singleCharTokenStep inp p w ')' .rparen (by decide) hcw (by decide)
        hq0 heven hpw
    · rw [if_neg hc12]
      by_cases hc13 : c = '\x7b'
      · rw [if_pos hc13]
        subst hc13
        exact singleCharTokenStep inp p w '\x7b' .lbrace (by decide) hcw (by decide)
          hq0 heven hpw
      · rw [if_neg hc13]
        by_cases hc14 : c = '\x7d'
        · rw [if_pos hc14]
          subst hc14
          exact singleCharTokenStep inp p w '\x7d' .rbrace (by decide) hcw (by decide)
            hq0 heven hpw
        · rw [if_neg hc14]
          by_cases hc15 : c = '['
          · rw [if_pos hc15]
            subst hc15
            exact singleCharTokenStep inp p w '[' .lbracket (by decide) hcw (by decide)
              hq0 heven hpw
          · rw [if_neg hc15]
            by_cases hc16 : c = ']'
            · rw [if_pos hc16]
              subst hc16
              exact singleCharTokenStep inp p w ']' .rbracket (by decide) hcw
                (by decide) hq0 heven hpw
            · rw [if_neg hc16]
              by_cases hc17 : c = '"'
              · rw [if_pos hc17]
                subst hc17
                -- a string literal: parity guarantees a closing quote ahead
                have hq1 : quotesFrom inp w = quotesFrom inp (w + 1) + 1 :=
                  quotesFrom_succ_of_quote inp w hcw
                have hodd : ¬ Even (quotesFrom inp (w + 1)) := by
                  intro he
                  rw [hq1, Nat.even_add_one] at hevenw
                  exact hevenw he
                have hpos : 0 < quotesFrom inp (w + 1) := by
                  rcases Nat.eq_zero_or_pos (quotesFrom inp (w + 1)) with h0 | h1
                  · exact absurd (h0 ▸ even_zero) hodd
                  · exact h1
                have hexq : ∃ j, inp.get? (w + 1 + j) = some '"' := by
                  have hmem : '"' ∈ inp.drop (w + 1) := List.count_pos_iff.mp hpos
                  obtain ⟨n, hn⟩ := List.mem_iff_get?.mp hmem
                  refine ⟨n, ?_⟩
                  rw [List.get?_eq_getElem?, ← List.getElem?_drop,
                    ← List.get?_eq_getElem?]
                  exact hn
                have hquote : inp.get? (w + 1 + Nat.find hexq) = some '"' :=
                  Nat.find_spec hexq
                have hminq : ∀ i, i < Nat.find hexq → inp.get? (w + 1 + i) ≠ some '"' :=
                  fun i hi => Nat.find_min hexq hi
                have hqlen : w + 1 + Nat.find hexq < inp.length := get?_some_lt hquote
                have hrs : readStringLoop (inp.length + 2) (stateAt inp w) =
                    some (stateAt inp (w + 1 + Nat.find hexq)) :=
                  readStringLoop_stateAt (Nat.find hexq) _ inp w (by omega) hminq hquote
                have hsl : slice inp (w + 1) (w + 1 + Nat.find hexq) =
                    some (String.mk ((inp.drop (w + 1)).take
                      (w + 1 + Nat.find hexq - (w + 1)))) :=
                  slice_ascii inp (w + 1) (w + 1 + Nat.find hexq) hascii
                    (by omega) (by omega)
                simp only [readString, stateAt_position, stateAt_input, hrs, hsl]
                refine ⟨_, w + 1 + Nat.find hexq + 1, by rw [readChar_stateAt], ?_,
                  by omega, fun habs => absurd habs (by simp), fun _ => by omega⟩
                have hq2 : quotesFrom inp (w + 1) =
                    quotesFrom inp (w + 1 + Nat.find hexq) :=
                  quotesFrom_add_of_no_quote inp (w + 1) (Nat.find hexq) hminq
                have hq3 : quotesFrom inp (w + 1 + Nat.find hexq) =
                    quotesFrom inp (w + 1 + Nat.find hexq + 1) + 1 :=
                  quotesFrom_succ_of_quote inp _ hquote
                have : quotesFrom inp w =
                    quotesFrom inp (w + 1 + Nat.find hexq + 1) + 2 := by
                  rw [hq1, hq2, hq3]
                rw [this] at hevenw
                rcases hevenw with ⟨m, hm⟩
                exact ⟨m - 1, by omega⟩
              · rw [if_neg hc17]
                by_cases hl : isLetter c
                · rw [if_pos hl]
                  -- an identifier/keyword token
                  have hexl : ∃ j, ((inp.get? (w + j)).any isLetter) = false :=
                    ⟨inp.length, by rw [List.get?_eq_none.mpr (by omega)]; rfl⟩
                  have hstopl : ((inp.get? (w + Nat.find hexl)).any isLetter) = false :=
                    Nat.find_spec hexl
                  have hminl : ∀ i, i < Nat.find hexl →
                      ((inp.get? (w + i)).any isLetter) = true := by
                    intro i hi
                    have hnot := Nat.find_min hexl hi
                    cases hb : ((inp.get? (w + i)).any isLetter) with
                    | true => rfl
                    | false => exact absurd hb hnot
                  have hjle : Nat.find hexl ≤ inp.length :=
                    Nat.find_min' hexl (by rw [List.get?_eq_none.mpr (by omega)]; rfl)
                  have hj1 : 1 ≤ Nat.find hexl := by
                    rcases Nat.eq_zero_or_pos (Nat.find hexl) with h0 | hge
                    · exfalso
                      have hs := Nat.find_spec hexl
                      rw [h0, Nat.add_zero, hcw] at hs
                      simp only [Option.any_some] at hs
                      rw [hl] at hs
                      exact Bool.noConfusion hs
                    · exact hge
                  have hadv : advanceWhile isLetter (inp.length + 2) (stateAt inp w) =
                      some (stateAt inp (w + Nat.find hexl)) :=
                    advanceWhile_stateAt _ (Nat.find hexl) _ inp w (by omega) hminl hstopl
                  have hqlen2 : w + Nat.find hexl ≤ inp.length := by
                    have hlast := hminl (Nat.find hexl - 1) (by omega)
                    cases hg : inp.get? (w + (Nat.find hexl - 1)) with
                    | none => rw [hg] at hlast; exact absurd hlast (by simp)
                    | some ch =>
                      have := get?_some_lt hg
                      omega
                  have hsl : slice inp w (w + Nat.find hexl) =
                      some (String.mk ((inp.drop w).take (w + Nat.find hexl - w))) :=
                    slice_ascii inp w (w + Nat.find hexl) hascii (by omega) hqlen2
                  simp only [readIdentfier, stateAt_position, stateAt_input, hadv, hsl]
                  refine ⟨_, w + Nat.find hexl, rfl, ?_, by omega,
                    fun habs => absurd habs (lookupIdent_ne_eof _), fun _ => hqlen2⟩
                  rw [← quotesFrom_add_of_no_quote inp w (Nat.find hexl) ?_, ← hq0]
                  · exact heven
                  · intro i hi
                    have h := hminl i hi
                    cases hgi : inp.get? (w + i) with
                    | none => rw [hgi] at h; exact absurd h (by simp)
                    | some ch =>
                      rw [hgi] at h
                      simp only [Option.any_some] at h
                      intro hqq
                      exact (isLetter_ne_quote h) (Option.some.inj hqq)
                · rw [if_neg hl]
                  by_cases hd : isDigit c
                  · rw [if_pos hd]
                    -- a number token
                    have hexd : ∃ j, ((inp.get? (w + j)).any isDigit) = false :=
                      ⟨inp.length, by rw [List.get?_eq_none.mpr (by omega)]; rfl⟩
                    have hstopd : ((inp.get? (w + Nat.find hexd)).any isDigit) = false :=
                      Nat.find_spec hexd
                    have hmind : ∀ i, i < Nat.find hexd →
                        ((inp.get? (w + i)).any isDigit) = true := by
                      intro i hi
                      have hnot := Nat.find_min hexd hi
                      cases hb : ((inp.get? (w + i)).any isDigit) with
                      | true => rfl
                      | false => exact absurd hb hnot
                    have hjled : Nat.find hexd ≤ inp.length :=
                      Nat.find_min' hexd (by rw [List.get?_eq_none.mpr (by omega)]; rfl)
                    have hj1d : 1 ≤ Nat.find hexd := by
                      rcases Nat.eq_zero_or_pos (Nat.find hexd) with h0 | hge
                      · exfalso
                        have hs := Nat.find_spec hexd
                        rw [h0, Nat.add_zero, hcw] at hs
                        simp only [Option.any_some] at hs
                        rw [hd] at hs
                        exact Bool.noConfusion hs
                      · exact hge
                    have hadvd : advanceWhile isDigit (inp.length + 2) (stateAt inp w) =
                        some (stateAt inp (w + Nat.find hexd)) :=
                      advanceWhile_stateAt _ (Nat.find hexd) _ inp w (by omega)
                        hmind hstopd
                    have hqlen3 : w + Nat.find hexd ≤ inp.length := by
                      have hlast := hmind (Nat.find hexd - 1) (by omega)
                      cases hg : inp.get? (w + (Nat.find hexd - 1)) with
                      | none => rw [hg] at hlast; exact absurd hlast (by simp)
                      | some ch =>
                        have := get?_some_lt hg
                        omega
                    have hsl : slice inp w (w + Nat.find hexd) =
                        some (String.mk ((inp.drop w).take (w + Nat.find hexd - w))) :=
                      slice_ascii inp w (w + Nat.find hexd) hascii (by omega) hqlen3
                    simp only [readNumber, stateAt_position, stateAt_input, hadvd, hsl]
                    refine ⟨_, w + Nat.find hexd, rfl, ?_, by omega,
                      fun habs => absurd habs (by simp), fun _ => hqlen3⟩
                    rw [← quotesFrom_add_of_no_quote inp w (Nat.find hexd) ?_, ← hq0]
                    · exact heven
                    · intro i hi
                      have h := hmind i hi
                      cases hgi : inp.get? (w + i) with
                      | none => rw [hgi] at h; exact absurd h (by simp)
                      | some ch =>
                        rw [hgi] at h
                        simp only [Option.any_some] at h
                        intro hqq
                        exact (isDigit_ne_quote h) (Option.some.inj hqq)
                  · rw [if_neg hd]
                    exact singleCharTokenStep inp p w c .illegal (by decide) hcw hc17
                      hq0 heven hpw

/-- One `next_token` call with ample fuel, from any reachable state with an
even number of `"` characters ahead: it returns a token, lands in the normal
form at a strictly larger position with the parity intact, and yields `Eof`
exactly when the lexer has run off the end of the input. -/
theorem nextToken_step (inp : List Char) (p : Nat)
    (hascii : ∀ ch ∈ inp, ch.toNat < 128)
    (heven : Even (quotesFrom inp p)) :
    StepOut inp p (nextToken (inp.length + 2) (stateAt inp p)) := by
  have hex : ∃ j, ((inp.get? (p + j)).any isAsciiWhitespace) = false :=
    ⟨inp.length, by rw [List.get?_eq_none.mpr (by omega)]; rfl⟩
  have hstop : ((inp.get? (p + Nat.find hex)).any isAsciiWhitespace) = false :=
    Nat.find_spec hex
  have hmin : ∀ i, i < Nat.find hex →
      ((inp.get? (p + i)).any isAsciiWhitespace) = true := by
    intro i hi
    have hnot := Nat.find_min hex hi
    cases hb : ((inp.get? (p + i)).any isAsciiWhitespace) with
    | true => rfl
    | false => exact absurd hb hnot
  have hj₀le : Nat.find hex ≤ inp.length :=
    Nat.find_min' hex (by rw [List.get?_eq_none.mpr (by omega)]; rfl)
  have hws : skipWhitespace (inp.length + 2) (stateAt inp p) =
      some (stateAt inp (p + Nat.find hex)) :=
    advanceWhile_stateAt _ (Nat.find hex) _ inp p (by omega) hmin hstop
  have hquoteskip : quotesFrom inp p = quotesFrom inp (p + Nat.find hex) := by
    apply quotesFrom_add_of_no_quote
    intro i hi
    have h := hmin i hi
    cases hgi : inp.get? (p + i) with
    | none => rw [hgi] at h; exact absurd h (by simp)
    | some ch =>
      rw [hgi] at h
      simp only [Option.any_some] at h
      intro hqq
      exact (isAsciiWhitespace_ne_quote h) (Option.some.inj hqq)
  generalize hwdef : p + Nat.find hex = w at hws hquoteskip
  have hpw : p ≤ w := by omega
  have hevenw : Even (quotesFrom inp w) := hquoteskip ▸ heven
  unfold skipWhitespace at hws
  simp only [nextToken, skipWhitespace, hws, stateAt_ch, peekChar_stateAt,
    stateAt_position]
  cases hcw : inp.get? w with
  | none =>
    have hlen : inp.length ≤ w := List.get?_eq_none.mp hcw
    dsimp only
    refine ⟨Token.new .eof w w, w + 1, by rw [readChar_stateAt], ?_, by omega,
      fun _ => by omega, fun hne => absurd rfl hne⟩
    rw [quotesFrom_past inp (w + 1) (by omega)]
    exact even_zero
  | some c =>
    dsimp only
    by_cases hc1 : c = '='
    · subst hc1
      by_cases hp1 : inp.get? (w + 1) = some '='
      · rw [if_pos hp1, readChar_stateAt, stateAt_position]
        exact twoCharTokenStep inp p w '=' '=' .equal (by decide) hcw hp1
          (by decide) (by decide) hquoteskip heven hpw
      · rw [if_neg hp1]
        exact singleCharTokenStep inp p w '=' .assign (by decide) hcw (by decide)
          hquoteskip heven hpw
    · rw [if_neg hc1]
      by_cases hc2 : c = '+'
      · subst hc2
        exact singleCharTokenStep inp p w '+' .plus (by decide) hcw (by decide)
          hquoteskip heven hpw
      · rw [if_neg hc2]
        by_cases hc3 : c = '-'
        · subst hc3
          exact singleCharTokenStep inp p w '-' .minus (by decide) hcw (by decide)
            hquoteskip heven hpw
        · rw [if_neg hc3]
          by_cases hc4 : c = '!'
          · subst hc4
            by_cases hp2 : inp.get? (w + 1) = some '='
            · rw [if_pos hp2, readChar_stateAt, stateAt_position]
              exact twoCharTokenStep inp p w '!' '=' .notEqual (by decide) hcw hp2
                (by decide) (by decide) hquoteskip heven hpw
            · rw [if_neg hp2]
              exact singleCharTokenStep inp p w '!' .bang (by decide) hcw (by decide)
                hquoteskip heven hpw
          · rw [if_neg hc4]
            by_cases hc5 : c = '/'
            · subst hc5
              exact singleCharTokenStep inp p w '/' .slash (by decide) hcw (by decide)
                hquoteskip heven hpw
            · rw [if_neg hc5]
              by_cases hc6 : c = '*'
              · subst hc6
                exact singleCharTokenStep inp p w '*' .asterisk (by decide) hcw
                  (by decide) hquoteskip heven hpw
              · rw [if_neg hc6]
                by_cases hc7 : c = '<'
                · subst hc7
                  exact singleCharTokenStep inp p w '<' .lessThan (by decide) hcw
                    (by decide) hquoteskip heven hpw
                · rw [if_neg hc7]
                  by_cases hc8 : c = '>'
                  · subst hc8
                    exact singleCharTokenStep inp p w '>' .greaterThan (by decide) hcw
                      (by decide) hquoteskip heven hpw
                  · rw [if_neg hc8]
                    by_cases hc9 : c = ';'
                    · subst hc9
                      exact singleCharTokenStep inp p w ';' .semicolon (by decide) hcw
                        (by decide) hquoteskip heven hpw
                    · rw [if_neg hc9]
                      by_cases hc10 : c = ','
                      · subst hc10
                        exact singleCharTokenStep inp p w ',' .comma (by decide) hcw
                          (by decide) hquoteskip heven hpw
                      · rw [if_neg hc10]
                        exact nextToken_step_tail inp p w c hascii heven hpw hquoteskip
                          hcw hc1 hc2 hc3 hc4 hc5 hc6 hc7 hc8 hc9 hc10

theorem callK_zero (s : LexState) : callK 0 s = nextTokenAmple s := rfl

theorem callK_succ (s s' : LexState) (t : Token) (h : nextTokenAmple s = some (t, s')) :
    ∀ k, callK (k + 1) s = callK k s' := by
  intro k
  simp only [callK, stateAfter, h]

theorem nextTokenAmple_stateAt (inp : List Char) (p : Nat) :
    nextTokenAmple (stateAt inp p) = nextToken (inp.length + 2) (stateAt inp p) := rfl

/-- Past the end of the input every call yields an `Eof` token forever. -/
theorem callK_pastEnd : ∀ (k : Nat) (inp : List Char) (p : Nat),
    (∀ ch ∈ inp, ch.toNat < 128) → inp.length ≤ p →
    ∃ t q, callK k (stateAt inp p) = some (t, stateAt inp q) ∧ t.kind = .eof := by
  intro k
  induction k with
  | zero =>
    intro inp p hascii hp
    have heven : Even (quotesFrom inp p) := by
      rw [quotesFrom_past inp p hp]
      exact even_zero
    obtain ⟨t, q, heq, _, hpq, _, hne⟩ := nextToken_step inp p hascii heven
    refine ⟨t, q, ?_, ?_⟩
    · rw [callK_zero, nextTokenAmple_stateAt]
      exact heq
    · by_contra hcon
      have := hne hcon
      omega
  | succ k ih =>
    intro inp p hascii hp
    have heven : Even (quotesFrom inp p) := by
      rw [quotesFrom_past inp p hp]
      exact even_zero
    obtain ⟨t, q, heq, _, hpq, _, hne⟩ := nextToken_step inp p hascii heven
    have heq' : nextTokenAmple (stateAt inp p) = some (t, stateAt inp q) := heq
    obtain ⟨t', q', hk, heof⟩ := ih inp q hascii (by omega)
    exact ⟨t', q', by rw [callK_succ _ _ _ heq' k]; exact hk, heof⟩

/-- From any reachable position with even quote parity ahead, the repeated
calls produce finitely many non-`Eof` tokens and then `Eof` forever. -/
theorem lexer_reach : ∀ (m : Nat) (inp : List Char) (p : Nat),
    (∀ ch ∈ inp, ch.toNat < 128) →
    Even (quotesFrom inp p) → inp.length + 1 - p ≤ m →
    ∃ N, ∀ k, ∃ t q, callK k (stateAt inp p) = some (t, stateAt inp q) ∧
      (t.kind = .eof ↔ N ≤ k) := by
  intro m
  induction m with
  | zero =>
    intro inp p hascii _ hm
    refine ⟨0, fun k => ?_⟩
    obtain ⟨t, q, hk, heof⟩ := callK_pastEnd k inp p hascii (by omega)
    exact ⟨t, q, hk, by simp [heof]⟩
  | succ m ih =>
    intro inp p hascii heven hm
    obtain ⟨t, q, heq, hevenq, hpq, heof, hne⟩ := nextToken_step inp p hascii heven
    have heq' : nextTokenAmple (stateAt inp p) = some (t, stateAt inp q) := heq
    by_cases ht : t.kind = .eof
    · refine ⟨0, fun k => ?_⟩
      cases k with
      | zero => exact ⟨t, q, heq', by simp [ht]⟩
      | succ k =>
        obtain ⟨t', q', hk, heof'⟩ :=
          callK_pastEnd k inp q hascii (by have := heof ht; omega)
        refine ⟨t', q', ?_, by simp [heof']⟩
        rw [callK_succ _ _ _ heq' k]
        exact hk
    · have hqle : q ≤ inp.length := hne ht
      obtain ⟨N, hN⟩ := ih inp q hascii hevenq (by omega)
      refine ⟨N + 1, fun k => ?_⟩
      cases k with
      | zero =>
        refine ⟨t, q, heq', ?_⟩
        simp [ht]
      | succ k =>
        obtain ⟨t', q', hk, hiff⟩ := hN k
        refine ⟨t', q', ?_, ?_⟩
        · rw [callK_succ _ _ _ heq' k]
          exact hk
        · rw [hiff]
          omega

/-- **C9 (counterexample).**  Two sources on which the very first
`next_token` call never returns a token, for any fuel — so no finite
`Eof`-terminated token sequence exists.  On the one-character source `"` —
an unterminated string literal — the string-scanning loop runs forever.  On
the source `"é"` (the three characters `"`, `é`, `"`) the loop exits, but
`read_string` then slices `input[1..2]` with byte indices: byte 2 falls
inside the two-byte `é`, the non-character-boundary panic. -/
theorem c9_unterminated_string_counterexample :
    (∀ fuel, nextToken fuel (lexerNew ['"']) = none) ∧
    (∀ fuel, lexSource fuel "\"" = none) ∧
    ¬ lexerTerminatesWithEof ['"'] ∧
    (∀ fuel, nextToken fuel (lexerNew ['"', 'é', '"']) = none) := by
  have hnt : ∀ fuel, nextToken fuel (lexerNew ['"']) = none := by
    intro fuel
    rw [lexerNew_stateAt]
    cases fuel with
    | zero => rfl
    | succ f =>
      have hws : skipWhitespace (f + 1) (stateAt ['"'] 0) = some (stateAt ['"'] 0) := by
        have := advanceWhile_stateAt isAsciiWhitespace 0 (f + 1) ['"'] 0 (by omega)
          (fun i hi => absurd hi (by omega)) (by decide)
        simpa using this
      have hrs : readStringLoop (f + 1) (stateAt ['"'] 0) = none := by
        apply readStringLoop_none
        intro j
        rw [List.get?_eq_none.mpr (by simp only [List.length_cons, List.length_nil]; omega)]
        exact fun h => Option.noConfusion h
      simp only [nextToken, skipWhitespace] at hws ⊢
      rw [hws]
      simp only [stateAt_ch]
      rw [show (['"'] : List Char).get? 0 = some '"' from rfl]
      dsimp only
      rw [if_neg (by decide), if_neg (by decide), if_neg (by decide),
        if_neg (by decide), if_neg (by decide), if_neg (by decide),
        if_neg (by decide), if_neg (by decide), if_neg (by decide),
        if_neg (by decide), if_neg (by decide), if_neg (by decide),
        if_neg (by decide), if_neg (by decide), if_neg (by decide),
        if_neg (by decide), if_pos rfl]
      simp only [readString, hrs]
  have hna : nextTokenAmple (lexerNew ['"']) = none := hnt 3
  refine ⟨hnt, ?_, ?_, ?_⟩
  · intro fuel
    cases fuel with
    | zero => rfl
    | succ f =>
      show lexAll (f + 1) (lexerNew ['"']) = none
      simp only [lexAll, hna]
  · intro ⟨N, hk⟩
    obtain ⟨t, s', heq, _⟩ := hk 0
    rw [callK_zero, hna] at heq
    exact Option.noConfusion heq
  · intro fuel
    cases fuel with
    | zero => rfl
    | succ f =>
      cases f with
      | zero => rfl
      | succ f =>
        rw [lexerNew_stateAt]
        have hws : skipWhitespace (f + 1 + 1) (stateAt ['"', 'é', '"'] 0) =
            some (stateAt ['"', 'é', '"'] 0) := by
          have := advanceWhile_stateAt isAsciiWhitespace 0 (f + 1 + 1)
            ['"', 'é', '"'] 0 (by omega) (fun i hi => absurd hi (by omega)) (by decide)
          simpa using this
        have hrs : readStringLoop (f + 1 + 1) (stateAt ['"', 'é', '"'] 0) =
            some (stateAt ['"', 'é', '"'] 2) := by
          have := readStringLoop_stateAt 1 (f + 1 + 1) ['"', 'é', '"'] 0 (by omega)
            (fun i hi => by
              have hi0 : i = 0 := by omega
              subst hi0
              decide)
            (by decide)
          simpa using this
        simp only [nextToken, skipWhitespace] at hws ⊢
        rw [hws]
        simp only [stateAt_ch]
        rw [show (['"', 'é', '"'] : List Char).get? 0 = some '"' from rfl]
        dsimp only
        rw [if_neg (by decide), if_neg (by decide), if_neg (by decide),
          if_neg (by decide), if_neg (by decide), if_neg (by decide),
          if_neg (by decide), if_neg (by decide), if_neg (by decide),
          if_neg (by decide), if_neg (by decide), if_neg (by decide),
          if_neg (by decide), if_neg (by decide), if_neg (by decide),
          if_neg (by decide), if_pos rfl]
        simp only [readString, stateAt_position, hrs]
        rfl

/-- **C9 (amended).**  For every source text of ASCII characters — on which
the byte-indexed slices of the lexer agree with its character-counted
positions, so they cannot panic — whose number of `"` characters is even —
precisely the texts without an unterminated string literal — repeatedly
calling `next_token` on a fresh lexer produces a finite sequence of
non-`Eof` tokens followed by the `Eof` token, and once `Eof` has been
produced every further call again yields `Eof`. -/
theorem c9_lexer_terminates_with_eof :
    ∀ input : List Char, (∀ c ∈ input, c.toNat < 128) → Even (input.count '"') →
      lexerTerminatesWithEof input := by
  intro input hascii he
  have heven : Even (quotesFrom input 0) := by
    unfold quotesFrom
    rw [List.drop_zero]
    exact he
  obtain ⟨N, hN⟩ := lexer_reach (input.length + 1) input 0 hascii heven (by omega)
  rw [lexerTerminatesWithEof, lexerNew_stateAt]
  exact ⟨N, fun k => by
    obtain ⟨t, q, heq, hiff⟩ := hN k
    exact ⟨t, stateAt input q, heq, hiff⟩⟩

/-- Witness for `c9_lexer_terminates_with_eof`: the source `x "y" 1` is
ASCII with an even number of quotes, so its token stream ends in absorbing
`Eof`. -/
theorem c9_lexer_terminates_with_eof_witness :
    (∀ c ∈ (String.toList "x \"y\" 1"), c.toNat < 128) ∧
    Even ((String.toList "x \"y\" 1").count '"') ∧
    lexerTerminatesWithEof (String.toList "x \"y\" 1") :=
  ⟨by decide, by decide,
    c9_lexer_terminates_with_eof (String.toList "x \"y\" 1") (by decide) (by decide)⟩

end Monkey
